import Mathlib

/-!
Shallow embedding of the zone geometry and area-resolution engine of
`src/src/App.tsx` (irrigation-penetration).  Pixel coordinates are embedded
as rationals (the source works with JS numbers; all engine arithmetic on
them is field arithmetic, which `ℚ` models exactly), except the two
square-root based distance functions, which are embedded over `ℝ` exactly
as written and given decidability bridges.  Grid cells produced by the
segmentation loops always carry integer coordinates (the scan starts at 0
and steps by `CALCULATION_GRID_SIZE`, and flood fill shifts by the same
constant), so they are embedded as `ℤ × ℤ`; the source's string key
`getKey x y = s!"\x7bx\x7d,\x7by\x7d"` is injective on coordinates, so the
visited set of keys is embedded as a list of cells.  The flood-fill `while`
loop is embedded with explicit fuel; termination (the fuel being
sufficient) is proved, not assumed.
-/

namespace Irrigation

/-- Pixel-space point (source `Point`). -/
structure Point where
  x : ℚ
  y : ℚ
deriving DecidableEq

/-- Zone kinds that may tag a stored shape (source `Shape['type']`,
the union `'regular' | 'exclusion' | 'drip' | 'delete'`). -/
inductive ShapeKind where
  | regular
  | exclusion
  | drip
  | delete
deriving DecidableEq

/-- The three irrigation-relevant classifications (return type of
`getZoneTypeAtPoint` and `Region['type']`). -/
inductive ZoneKind where
  | regular
  | exclusion
  | drip
deriving DecidableEq

/-- Source `DrawingTool`. -/
inductive DrawingTool where
  | regular
  | exclusion
  | drip
  | ruler
  | delete
deriving DecidableEq

/-- Source `Ruler['unit']`. -/
inductive RulerUnit where
  | ft
  | m
deriving DecidableEq

/-- Source `Shape`. -/
structure Shape where
  points : List Point
  area : ℚ
  type : ShapeKind
deriving DecidableEq

/-- Source `Ruler` (`endPt` embeds the field `end`, a Lean keyword). -/
structure Ruler where
  start : Point
  endPt : Point
  length : ℝ
  unit : RulerUnit

/-- Source constant `GRID_SIZE = 4` (hover / overlay grid). -/
def GRID_SIZE : ℕ := 4

/-- Source constant `CALCULATION_GRID_SIZE = 2` (segmentation grid). -/
def CALCULATION_GRID_SIZE : ℕ := 2

/-- Source constant `SNAP_THRESHOLD = 10`. -/
def SNAP_THRESHOLD : ℚ := 10

/-- A grid cell of the segmentation lattice. -/
abbrev Cell := ℤ × ℤ

/-- The sampled cell as the `Point` handed to the classifier. -/
def cellPoint (c : Cell) : Point := ⟨(c.1 : ℚ), (c.2 : ℚ)⟩

/-- Shoelace accumulation step for index `i`
(source `calculatePixelArea` loop body). -/
def shoelaceTerm (points : List Point) (i : ℕ) : ℚ :=
  let a := points.getD i ⟨0, 0⟩
  let b := points.getD ((i + 1) % points.length) ⟨0, 0⟩
  a.x * b.y - b.x * a.y

/-- Source `calculatePixelArea`: shoelace formula, `|Σ|/2`. -/
def calculatePixelArea (points : List Point) : ℚ :=
  |(List.range points.length).foldl (fun area i => area + shoelaceTerm points i) 0| / 2

/-- Source `isNearStartPoint`: `sqrt(dx² + dy²) < SNAP_THRESHOLD`. -/
def isNearStartPoint (point startPoint : Point) : Prop :=
  Real.sqrt (((point.x - startPoint.x : ℚ) : ℝ) * ((point.x - startPoint.x : ℚ) : ℝ) +
      ((point.y - startPoint.y : ℚ) : ℝ) * ((point.y - startPoint.y : ℚ) : ℝ)) <
    ((SNAP_THRESHOLD : ℚ) : ℝ)

/-- The square root comparison against the positive threshold is equivalent
to the rational comparison of squares, which makes `isNearStartPoint`
decidable (and hence executable). -/
instance (point startPoint : Point) : Decidable (isNearStartPoint point startPoint) :=
  decidable_of_iff
    ((point.x - startPoint.x) * (point.x - startPoint.x) +
        (point.y - startPoint.y) * (point.y - startPoint.y) <
      SNAP_THRESHOLD * SNAP_THRESHOLD) (by
    rw [isNearStartPoint, show ((SNAP_THRESHOLD : ℚ) : ℝ) = 10 by norm_num [SNAP_THRESHOLD],
      Real.sqrt_lt' (by norm_num)]
    rw [show ((10 : ℝ)) ^ 2 = ((SNAP_THRESHOLD * SNAP_THRESHOLD : ℚ) : ℝ) by
      norm_num [SNAP_THRESHOLD]]
    constructor
    · intro h
      exact_mod_cast h
    · intro h
      exact_mod_cast h)

/-- Source `calculatePixelDistance`: Euclidean distance. -/
noncomputable def calculatePixelDistance (p1 p2 : Point) : ℝ :=
  Real.sqrt (((p2.x - p1.x : ℚ) : ℝ) * ((p2.x - p1.x : ℚ) : ℝ) +
    ((p2.y - p1.y : ℚ) : ℝ) * ((p2.y - p1.y : ℚ) : ℝ))

/-- One iteration of the ray-casting loop of source `isPointInShape`,
with `a = shape[i]` and `b = shape[j]`. -/
def edgeCrosses (point a b : Point) : Bool :=
  (decide (a.y > point.y) != decide (b.y > point.y)) &&
    decide (point.x < (b.x - a.x) * (point.y - a.y) / (b.y - a.y) + a.x)

/-- Source `isPointInShape`: ray casting over index pairs
`(i, j)` with `j = shape.length - 1` for `i = 0` and `j = i - 1` after. -/
def isPointInShape (point : Point) (shape : List Point) : Bool :=
  (List.range shape.length).foldl
    (fun inside i =>
      let a := shape.getD i ⟨0, 0⟩
      let b := shape.getD (if i = 0 then shape.length - 1 else i - 1) ⟨0, 0⟩
      if edgeCrosses point a b then !inside else inside)
    false

/-- Source `getZoneTypeAtPoint` (closure inside `calculateZoneRegions`):
exclusion, then drip, then regular, else `null`. -/
def getZoneTypeAtPoint (shapes : List Shape) (point : Point) : Option ZoneKind :=
  if (shapes.filter fun sh => decide (sh.type = ShapeKind.exclusion)).any
      (fun sh => isPointInShape point sh.points) then some ZoneKind.exclusion
  else if (shapes.filter fun sh => decide (sh.type = ShapeKind.drip)).any
      (fun sh => isPointInShape point sh.points) then some ZoneKind.drip
  else if (shapes.filter fun sh => decide (sh.type = ShapeKind.regular)).any
      (fun sh => isPointInShape point sh.points) then some ZoneKind.regular
  else none

/-- Source `directions` array inside `floodFill`. -/
def directions : List Cell :=
  [(0, -(CALCULATION_GRID_SIZE : ℤ)), (0, (CALCULATION_GRID_SIZE : ℤ)),
    (-(CALCULATION_GRID_SIZE : ℤ), 0), ((CALCULATION_GRID_SIZE : ℤ), 0)]

/-- The `while (queue.length > 0)` loop of source `floodFill`, with explicit
fuel; state is `(queue, visited, region)` and the result is
`(region, visited)`.  Branch order follows the source: visited or
out-of-bounds first, then the classifier comparison, then processing. -/
def floodFillAux (width height : ℕ) (shapes : List Shape) (type : ZoneKind) :
    ℕ → List Cell → List Cell → List Cell → List Cell × List Cell
  | 0, _, visited, region => (region, visited)
  | _ + 1, [], visited, region => (region, visited)
  | fuel + 1, c :: queue, visited, region =>
    if c ∈ visited ∨ c.1 < 0 ∨ (width : ℤ) ≤ c.1 ∨ c.2 < 0 ∨ (height : ℤ) ≤ c.2 then
      floodFillAux width height shapes type fuel queue visited region
    else if getZoneTypeAtPoint shapes (cellPoint c) ≠ some type then
      floodFillAux width height shapes type fuel queue visited region
    else
      floodFillAux width height shapes type fuel
        (queue ++ directions.map fun d => (c.1 + d.1, c.2 + d.2))
        (c :: visited) (region ++ [c])

/-- Fuel sufficient for any flood fill started from a single seed:
proved sufficient in `floodFillAux_stable`. -/
def floodFillFuel (width height : ℕ) : ℕ := 1 + 5 * (width * height)

/-- Source `floodFill`: seeds the worklist with the start cell; `visited`
is the set shared with the enclosing scan. -/
def floodFill (width height : ℕ) (shapes : List Shape) (startX startY : ℤ)
    (type : ZoneKind) (visited : List Cell) : List Cell × List Cell :=
  floodFillAux width height shapes type (floodFillFuel width height)
    [(startX, startY)] visited []

/-- Source `Region`. -/
structure Region where
  points : List Cell
  type : ZoneKind
deriving DecidableEq

/-- The sampled coordinates `0, g, 2g, …` below `n` of the scan loops in
source `calculateZoneRegions` (`for (let x = 0; x < n; x += g)` with
`g = CALCULATION_GRID_SIZE`). -/
def sampleCoords (n : ℕ) : List ℤ :=
  (List.range ((n + CALCULATION_GRID_SIZE - 1) / CALCULATION_GRID_SIZE)).map
    fun i : ℕ => (CALCULATION_GRID_SIZE : ℤ) * (i : ℤ)

/-- The scan order of the nested loops in source `calculateZoneRegions`:
outer loop over `x`, inner loop over `y`. -/
def scanCells (width height : ℕ) : List Cell :=
  (sampleCoords width).flatMap fun x => (sampleCoords height).map fun y => (x, y)

/-- Body of the scan loop of source `calculateZoneRegions`: skip visited
cells, classify, flood fill, and push the region when nonempty. -/
def scanStep (width height : ℕ) (shapes : List Shape) (fuel : ℕ)
    (acc : List Region × List Cell) (c : Cell) : List Region × List Cell :=
  if c ∈ acc.2 then acc
  else
    match getZoneTypeAtPoint shapes (cellPoint c) with
    | none => acc
    | some type =>
      let r := floodFillAux width height shapes type fuel [c] acc.2 []
      (if r.1.length > 0 then acc.1 ++ [⟨r.1, type⟩] else acc.1, r.2)

/-- Source `calculateZoneRegions`, parametrized by the flood-fill fuel. -/
def calculateZoneRegionsFuel (width height : ℕ) (shapes : List Shape) (fuel : ℕ) :
    List Region :=
  ((scanCells width height).foldl (scanStep width height shapes fuel) ([], [])).1

/-- Source `calculateZoneRegions` (with the proved-sufficient fuel). -/
def calculateZoneRegions (width height : ℕ) (shapes : List Shape) : List Region :=
  calculateZoneRegionsFuel width height shapes (floodFillFuel width height)

/-- Source `calculateRegionArea`: cell count times cell area. -/
def calculateRegionArea (region : List Cell) : ℕ :=
  region.length * (CALCULATION_GRID_SIZE * CALCULATION_GRID_SIZE)

/-- Source `calculateTotalArea`: sum of region areas of one kind over the
memoized region set. -/
def calculateTotalArea (width height : ℕ) (shapes : List Shape) (type : ZoneKind) : ℕ :=
  ((calculateZoneRegions width height shapes).filter fun region =>
      decide (region.type = type)).foldl
    (fun total region => total + calculateRegionArea region.points) 0

/-- The hover branch of source `handleMouseMove` (the `startPoint == null`
case, the only one with an engine-observable result): snap the cursor to the
`GRID_SIZE` lattice and find the first region owning that exact cell;
`none` embeds the source's `-1 → null`. -/
def handleMouseMove (regions : List Region) (pos : Point) : Option ℕ :=
  let gridX : ℤ := ⌊pos.x / (GRID_SIZE : ℚ)⌋ * (GRID_SIZE : ℤ)
  let gridY : ℤ := ⌊pos.y / (GRID_SIZE : ℚ)⌋ * (GRID_SIZE : ℤ)
  regions.findIdx? fun region =>
    region.points.any fun p => decide (p.1 = gridX) && decide (p.2 = gridY)

/-- Engine state touched by the pointer/calibration handlers.  Rendering
state (`currentPath`, hover highlights) has no engine effect and is not
modeled. -/
structure EngineState where
  shapes : List Shape
  currentShape : List Point
  startPoint : Option Point
  ruler : Option Ruler
  pixelRatio : Option ℝ
  showRulerPrompt : Bool

/-- The drawing branch of source `handleMouseUp` (tools regular /
exclusion / drip): first segment, snap-close, or append. -/
def commitDrawPoint (kind : ShapeKind) (st : EngineState)
    (startPoint currentPoint : Point) : EngineState :=
  match st.currentShape with
  | [] => { st with currentShape := [startPoint, currentPoint] }
  | first :: _ =>
    if isNearStartPoint currentPoint first then
      let closedShape := st.currentShape ++ [first]
      { st with
        shapes := st.shapes ++ [⟨closedShape, calculatePixelArea closedShape, kind⟩],
        currentShape := [] }
    else { st with currentShape := st.currentShape ++ [currentPoint] }

/-- Deletion-by-point shared by source `handleCanvasClick` and the delete
branch of `handleMouseUp`: `findIndex` of the first containing shape
(`none` embeds `-1`), then `filter` that index out. -/
def handleCanvasClick (shapes : List Shape) (clickPoint : Point) : List Shape :=
  match shapes.findIdx? (fun sh => isPointInShape clickPoint sh.points) with
  | some i => shapes.eraseIdx i
  | none => shapes

/-- Source `handleMouseUp`: early return without a start point; ruler
placement, delete, or polygon capture by tool; always clears the start
point. -/
def handleMouseUp (selectedTool : DrawingTool) (st : EngineState)
    (currentPoint : Point) : EngineState :=
  match st.startPoint with
  | none => st
  | some startPoint =>
    let st' :=
      match selectedTool with
      | .ruler =>
        { st with ruler := some ⟨startPoint, currentPoint, 0, .ft⟩, showRulerPrompt := true }
      | .delete => { st with shapes := handleCanvasClick st.shapes currentPoint }
      | .regular => commitDrawPoint .regular st startPoint currentPoint
      | .exclusion => commitDrawPoint .exclusion st startPoint currentPoint
      | .drip => commitDrawPoint .drip st startPoint currentPoint
    { st' with startPoint := none }

/-- Source `handleRulerSubmit`.  The argument `lengthInput` is the parse of
the `rulerLength` text field: `none` embeds both guards that early-return
(`!rulerLength`, the empty string, and `isNaN(parseFloat(...))`, a
non-numeric string); `some len` is a successful parse. -/
noncomputable def handleRulerSubmit (st : EngineState) (lengthInput : Option ℝ)
    (unitInput : RulerUnit) : EngineState :=
  match st.ruler, lengthInput with
  | some r, some length =>
    { st with
      pixelRatio := some (length / calculatePixelDistance r.start r.endPt),
      ruler := some { r with length := length, unit := unitInput },
      showRulerPrompt := false }
  | _, _ => st

/-- Source `formatArea`: `none` embeds the `'Set ruler first'` branch
(JS `!pixelRatio`, which also fires on a zero ratio); otherwise the real
area `pixelArea · ratio²` together with the displayed unit
(`ruler?.unit || 'ft'`). -/
noncomputable def formatArea (st : EngineState) (pixelArea : ℝ) :
    Option (ℝ × RulerUnit) :=
  match st.pixelRatio with
  | none => none
  | some ratio =>
    if ratio = 0 then none
    else some (pixelArea * (ratio * ratio), (st.ruler.map Ruler.unit).getD RulerUnit.ft)

/-! ### Helper lemmas about the classifier -/

lemma any_filter_kind (shapes : List Shape) (k : ShapeKind) (p : Point) :
    ((shapes.filter fun sh => decide (sh.type = k)).any
        fun sh => isPointInShape p sh.points) = true ↔
      ∃ sh ∈ shapes, sh.type = k ∧ isPointInShape p sh.points = true := by
  simp only [List.any_eq_true, List.mem_filter, decide_eq_true_eq]
  tauto

lemma no_zone_kinds (shapes : List Shape) (p : Point)
    (hstore : ∀ sh ∈ shapes, sh.type ≠ ShapeKind.delete)
    (hE : ¬∃ sh ∈ shapes, sh.type = ShapeKind.exclusion ∧ isPointInShape p sh.points = true)
    (hD : ¬∃ sh ∈ shapes, sh.type = ShapeKind.drip ∧ isPointInShape p sh.points = true)
    (hR : ¬∃ sh ∈ shapes, sh.type = ShapeKind.regular ∧ isPointInShape p sh.points = true) :
    ∀ sh ∈ shapes, isPointInShape p sh.points = false := by
  intro sh hsh
  by_contra hc
  have hc' : isPointInShape p sh.points = true := by
    cases h : isPointInShape p sh.points
    · exact absurd h hc
    · rfl
  cases htype : sh.type with
  | regular => exact hR ⟨sh, hsh, htype, hc'⟩
  | exclusion => exact hE ⟨sh, hsh, htype, hc'⟩
  | drip => exact hD ⟨sh, hsh, htype, hc'⟩
  | delete => exact absurd htype (hstore sh hsh)

/-- C1: for every point and Zone Store (of zone shapes), `getZoneTypeAtPoint`
returns the highest-priority kind, exclusion > drip > regular, among the
shapes containing the point, and `none` exactly when no shape contains it;
the result is a single `Option ZoneKind`, never two kinds. -/
theorem getZoneTypeAtPoint_priority (shapes : List Shape) (p : Point)
    (hstore : ∀ sh ∈ shapes, sh.type ≠ ShapeKind.delete) :
    (getZoneTypeAtPoint shapes p = some ZoneKind.exclusion ↔
        ∃ sh ∈ shapes, sh.type = ShapeKind.exclusion ∧ isPointInShape p sh.points = true) ∧
    (getZoneTypeAtPoint shapes p = some ZoneKind.drip ↔
        (∃ sh ∈ shapes, sh.type = ShapeKind.drip ∧ isPointInShape p sh.points = true) ∧
          ¬∃ sh ∈ shapes, sh.type = ShapeKind.exclusion ∧ isPointInShape p sh.points = true) ∧
    (getZoneTypeAtPoint shapes p = some ZoneKind.regular ↔
        (∃ sh ∈ shapes, sh.type = ShapeKind.regular ∧ isPointInShape p sh.points = true) ∧
          ¬(∃ sh ∈ shapes, sh.type = ShapeKind.drip ∧ isPointInShape p sh.points = true) ∧
          ¬∃ sh ∈ shapes, sh.type = ShapeKind.exclusion ∧ isPointInShape p sh.points = true) ∧
    (getZoneTypeAtPoint shapes p = none ↔
        ∀ sh ∈ shapes, isPointInShape p sh.points = false) := by
  have hE := any_filter_kind shapes ShapeKind.exclusion p
  have hD := any_filter_kind shapes ShapeKind.drip p
  have hR := any_filter_kind shapes ShapeKind.regular p
  unfold getZoneTypeAtPoint
  split_ifs with h1 h2 h3
  · rw [hE] at h1
    refine ⟨by simp [h1], by simp [h1], by simp [h1], ?_⟩
    simp only [reduceCtorEq, false_iff, not_forall]
    obtain ⟨sh, hsh, -, hin⟩ := h1
    exact ⟨sh, hsh, by simp [hin]⟩
  · rw [hE] at h1; rw [hD] at h2
    refine ⟨by simp [h1], by simp [h2, h1], by simp [h2], ?_⟩
    simp only [reduceCtorEq, false_iff, not_forall]
    obtain ⟨sh, hsh, -, hin⟩ := h2
    exact ⟨sh, hsh, by simp [hin]⟩
  · rw [hE] at h1; rw [hD] at h2; rw [hR] at h3
    refine ⟨by simp [h1], by simp [h2], by simp [h3, h2, h1], ?_⟩
    simp only [reduceCtorEq, false_iff, not_forall]
    obtain ⟨sh, hsh, -, hin⟩ := h3
    exact ⟨sh, hsh, by simp [hin]⟩
  · rw [hE] at h1; rw [hD] at h2; rw [hR] at h3
    refine ⟨by simp [h1], by simp [h2], by simp [h3], ?_⟩
    simp only [true_iff]
    exact no_zone_kinds shapes p hstore h1 h2 h3

/-- An axis-aligned closed square ring, the scenario input used by the
spec's testable properties. -/
def squareRing (a b c d : ℚ) : List Point := [⟨a, b⟩, ⟨c, b⟩, ⟨c, d⟩, ⟨a, d⟩, ⟨a, b⟩]

/-- Ray casting on an axis-aligned rectangle ring settles to half-open box
membership: the left and bottom edges are inside, the right and top are
out. -/
lemma isPointInShape_squareRing (p : Point) (a b c d : ℚ) (hac : a < c) (hbd : b < d) :
    isPointInShape p (squareRing a b c d) = true ↔
      a ≤ p.x ∧ p.x < c ∧ b ≤ p.y ∧ p.y < d := by
  rw [isPointInShape, show (squareRing a b c d).length = 5 from rfl,
    show List.range 5 = [0, 1, 2, 3, 4] from rfl]
  simp only [List.foldl_cons, List.foldl_nil, squareRing, List.getD_cons_zero,
    List.getD_cons_succ, edgeCrosses, sub_self, zero_mul, zero_div, zero_add,
    bne_self_eq_false, Bool.false_and, Bool.false_eq_true, if_false]
  rcases lt_or_le p.y b with hyb | hyb
  · have h1 : p.y < d := lt_trans hyb hbd
    simp [show b > p.y from hyb, show d > p.y from h1, not_le.mpr hyb]
  · rcases lt_or_le p.y d with hyd | hyd
    · rcases lt_or_le p.x a with hxa | hxa
      · have hxc : p.x < c := lt_trans hxa hac
        simp [show d > p.y from hyd, show ¬(b > p.y) from not_lt.mpr hyb, hxa, hxc,
          not_le.mpr hxa]
      · rcases lt_or_le p.x c with hxc | hxc
        · simp [show d > p.y from hyd, show ¬(b > p.y) from not_lt.mpr hyb, hxc,
            show ¬(p.x < a) from not_lt.mpr hxa, hxa, hyb, hyd]
        · have hna : ¬(p.x < a) := not_lt.mpr (le_trans (le_of_lt hac) hxc)
          simp [show d > p.y from hyd, show ¬(b > p.y) from not_lt.mpr hyb,
            show ¬(p.x < c) from not_lt.mpr hxc, hna, not_lt.mpr hxc]
    · simp [show ¬(d > p.y) from not_lt.mpr hyd,
        show ¬(b > p.y) from not_lt.mpr (le_trans (le_of_lt hbd) hyd), not_lt.mpr hyd]

/-- Bool-valued form of `isPointInShape_squareRing`. -/
lemma isPointInShape_squareRing_eq (p : Point) (a b c d : ℚ) (hac : a < c) (hbd : b < d) :
    isPointInShape p (squareRing a b c d)
      = (decide (a ≤ p.x) && decide (p.x < c) && decide (b ≤ p.y) && decide (p.y < d)) := by
  rw [Bool.eq_iff_iff, isPointInShape_squareRing p a b c d hac hbd]
  simp [and_assoc]

/-- Concrete store for the C1 witness: one regular square. -/
def storeC1 : List Shape := [⟨squareRing 0 0 100 100, 10000, ShapeKind.regular⟩]

theorem getZoneTypeAtPoint_priority_witness :
    getZoneTypeAtPoint storeC1 ⟨50, 50⟩ = some ZoneKind.regular := by
  have h := getZoneTypeAtPoint_priority storeC1 ⟨50, 50⟩ (by decide)
  exact h.2.2.1.mpr
    ⟨⟨⟨squareRing 0 0 100 100, 10000, ShapeKind.regular⟩, by simp [storeC1], rfl,
        (isPointInShape_squareRing _ 0 0 100 100 (by norm_num) (by norm_num)).mpr
          (by norm_num)⟩,
      by simp [storeC1], by simp [storeC1]⟩

/-! ### Shoelace area and reversal (C6) -/

lemma foldl_add_eq_sum (f : ℕ → ℚ) (l : List ℕ) (c : ℚ) :
    l.foldl (fun s i => s + f i) c = c + (l.map f).sum := by
  induction l generalizing c with
  | nil => simp
  | cons a l ih => simp [ih, add_assoc]

lemma sum_map_range (f : ℕ → ℚ) (n : ℕ) :
    ((List.range n).map f).sum = ∑ i ∈ Finset.range n, f i := by
  induction n with
  | zero => simp
  | succ n ih => rw [List.range_succ]; simp [ih, Finset.sum_range_succ]

lemma calculatePixelArea_eq (l : List Point) :
    calculatePixelArea l = |∑ i ∈ Finset.range l.length, shoelaceTerm l i| / 2 := by
  rw [calculatePixelArea, foldl_add_eq_sum, zero_add, sum_map_range]

lemma getD_reverse (l : List Point) (i : ℕ) (hi : i < l.length) (d : Point) :
    l.reverse.getD i d = l.getD (l.length - 1 - i) d := by
  rw [List.getD_eq_getElem?_getD, List.getD_eq_getElem?_getD, List.getElem?_reverse hi]

lemma shoelace_rev_term_lt (l : List Point) (i : ℕ) (h : i + 1 < l.length) :
    shoelaceTerm l.reverse i = - shoelaceTerm l (l.length - 2 - i) := by
  simp only [shoelaceTerm, List.length_reverse]
  rw [getD_reverse l i (by omega), Nat.mod_eq_of_lt h, getD_reverse l (i + 1) (by omega),
    show l.length - 1 - (i + 1) = l.length - 2 - i by omega,
    show (l.length - 2 - i + 1) % l.length = l.length - 1 - i by
      rw [show l.length - 2 - i + 1 = l.length - 1 - i by omega]
      exact Nat.mod_eq_of_lt (by omega)]
  ring

lemma shoelace_rev_term_last (l : List Point) (h : l.length ≠ 0) :
    shoelaceTerm l.reverse (l.length - 1) = - shoelaceTerm l (l.length - 1) := by
  simp only [shoelaceTerm, List.length_reverse]
  rw [getD_reverse l (l.length - 1) (by omega),
    show l.length - 1 - (l.length - 1) = 0 by omega,
    show (l.length - 1 + 1) % l.length = 0 by
      rw [show l.length - 1 + 1 = l.length by omega, Nat.mod_self],
    getD_reverse l 0 (by omega), Nat.sub_zero]
  ring

lemma shoelace_sum_reverse (l : List Point) :
    ∑ i ∈ Finset.range l.reverse.length, shoelaceTerm l.reverse i
      = - ∑ i ∈ Finset.range l.length, shoelaceTerm l i := by
  rcases Nat.eq_zero_or_pos l.length with h0 | hpos
  · rw [List.length_reverse, h0]; simp
  · rw [List.length_reverse]
    obtain ⟨m, hm⟩ : ∃ m, l.length = m + 1 := ⟨l.length - 1, by omega⟩
    rw [hm, Finset.sum_range_succ, Finset.sum_range_succ]
    have hlast : shoelaceTerm l.reverse m = - shoelaceTerm l m := by
      have := shoelace_rev_term_last l (by omega)
      rwa [hm, Nat.add_sub_cancel] at this
    have hstep : ∀ i ∈ Finset.range m, shoelaceTerm l.reverse i
        = - shoelaceTerm l (m - 1 - i) := by
      intro i hi
      have hi' : i < m := Finset.mem_range.mp hi
      have := shoelace_rev_term_lt l i (by omega)
      rwa [hm, show m + 1 - 2 - i = m - 1 - i by omega] at this
    rw [Finset.sum_congr rfl hstep, hlast,
      show ∑ i ∈ Finset.range m, -shoelaceTerm l (m - 1 - i)
          = - ∑ i ∈ Finset.range m, shoelaceTerm l (m - 1 - i) by
        rw [Finset.sum_neg_distrib],
      Finset.sum_range_reflect (fun j => shoelaceTerm l j) m]
    ring

/-- C6: `calculatePixelArea` (the shoelace polygon area) is invariant under
reversing the vertex order of a closed ring. -/
theorem calculatePixelArea_reverse (ring : List Point)
    (_hclosed : ring.head? = ring.getLast?) :
    calculatePixelArea ring.reverse = calculatePixelArea ring := by
  rw [calculatePixelArea_eq, calculatePixelArea_eq, shoelace_sum_reverse, abs_neg]

/-- Concrete closed ring for the C6 witness. -/
def ringC6 : List Point := [⟨0, 0⟩, ⟨4, 0⟩, ⟨0, 3⟩, ⟨0, 0⟩]

theorem calculatePixelArea_reverse_witness :
    ringC6.head? = ringC6.getLast? ∧
      calculatePixelArea ringC6.reverse = calculatePixelArea ringC6 :=
  ⟨by decide, calculatePixelArea_reverse ringC6 (by decide)⟩

/-! ### Ruler calibration (C7, C8) -/

/-- C8: a calibration submit whose length input is empty or fails to parse
(`none`) leaves the engine state — in particular the Ruler and the pixel
ratio — exactly unchanged. -/
theorem handleRulerSubmit_invalid_noop (st : EngineState) (u : RulerUnit) :
    handleRulerSubmit st none u = st := by
  unfold handleRulerSubmit
  cases st.ruler <;> rfl

/-- C7: a successful calibration sets `pixelRatio = realLength / distance`
and updates the Ruler's length and unit in the same transition; after
calibrating with real length 5 in meters, a region of pixel area `A` is
reported as `A · (5/L)²` square meters. -/
theorem handleRulerSubmit_calibrates (st : EngineState) (R : Ruler) (r : ℝ)
    (u : RulerUnit) (hR : st.ruler = some R)
    (hL : calculatePixelDistance R.start R.endPt ≠ 0) :
    (handleRulerSubmit st (some r) u).pixelRatio
        = some (r / calculatePixelDistance R.start R.endPt) ∧
      (handleRulerSubmit st (some r) u).ruler
        = some { R with length := r, unit := u } ∧
      ∀ A : ℝ, formatArea (handleRulerSubmit st (some 5) RulerUnit.m) A
          = some (A * (5 / calculatePixelDistance R.start R.endPt) ^ 2, RulerUnit.m) := by
  refine ⟨by simp [handleRulerSubmit, hR], by simp [handleRulerSubmit, hR], ?_⟩
  intro A
  have hratio : (5 : ℝ) / calculatePixelDistance R.start R.endPt ≠ 0 :=
    div_ne_zero (by norm_num) hL
  simp [handleRulerSubmit, hR, formatArea, hratio]
  exact Or.inl (sq (5 / calculatePixelDistance R.start R.endPt)).symm

/-- Ruler of pixel length 5 for the C7 witness. -/
def rulerC7 : Ruler := ⟨⟨0, 0⟩, ⟨3, 4⟩, 0, RulerUnit.ft⟩

/-- State holding the placed (uncalibrated) ruler for the C7 witness. -/
def stateC7 : EngineState := ⟨[], [], none, some rulerC7, none, true⟩

lemma dist_rulerC7 : calculatePixelDistance rulerC7.start rulerC7.endPt = 5 := by
  unfold calculatePixelDistance rulerC7
  push_cast
  norm_num
  rw [show (25 : ℝ) = 5 ^ 2 by norm_num, Real.sqrt_sq (by norm_num : (0 : ℝ) ≤ 5)]

theorem handleRulerSubmit_calibrates_witness :
    (handleRulerSubmit stateC7 (some 7) RulerUnit.m).pixelRatio
        = some (7 / calculatePixelDistance rulerC7.start rulerC7.endPt) :=
  (handleRulerSubmit_calibrates stateC7 rulerC7 7 RulerUnit.m rfl
    (by rw [dist_rulerC7]; norm_num)).1

/-! ### Deletion by point (C9) -/

lemma findIdx?_first_true {α : Type} (p : α → Bool) (pre : List α) (x : α)
    (post : List α) (hpre : ∀ a ∈ pre, p a = false) (hx : p x = true) :
    (pre ++ x :: post).findIdx? p = some pre.length := by
  induction pre with
  | nil => simp [List.findIdx?_cons, hx]
  | cons a pre ih =>
    have ha := hpre a (by simp)
    have ih' := ih fun b hb => hpre b (by simp [hb])
    simp [List.findIdx?_cons, ha, List.findIdx?_succ, ih']

lemma eraseIdx_append_middle {α : Type} (pre : List α) (x : α) (post : List α) :
    (pre ++ x :: post).eraseIdx pre.length = pre ++ post := by
  induction pre with
  | nil => simp
  | cons a pre ih => simpa using ih

/-- C9: a deletion event removes exactly the first shape in stored
(insertion) order whose polygon contains the point, leaving the rest
unchanged; when no shape contains the point the store is unchanged. -/
theorem handleCanvasClick_removes_first :
    (∀ (shapes : List Shape) (p : Point),
        (∀ sh ∈ shapes, isPointInShape p sh.points = false) →
          handleCanvasClick shapes p = shapes) ∧
    (∀ (pre : List Shape) (sh : Shape) (post : List Shape) (p : Point),
        (∀ s ∈ pre, isPointInShape p s.points = false) →
          isPointInShape p sh.points = true →
          handleCanvasClick (pre ++ sh :: post) p = pre ++ post) := by
  constructor
  · intro shapes p h
    have : shapes.findIdx? (fun sh => isPointInShape p sh.points) = none :=
      List.findIdx?_eq_none_iff.mpr h
    simp [handleCanvasClick, this]
  · intro pre sh post p hpre hsh
    have : (pre ++ sh :: post).findIdx? (fun s => isPointInShape p s.points)
        = some pre.length := findIdx?_first_true _ pre sh post hpre hsh
    simp [handleCanvasClick, this, eraseIdx_append_middle]

/-- Shape A of the C9 witness scenario (inserted first). -/
def shapeA : Shape := ⟨squareRing 0 0 4 4, 16, ShapeKind.regular⟩

/-- Shape B of the C9 witness scenario (inserted second, overlapping A). -/
def shapeB : Shape := ⟨squareRing 0 0 8 8, 64, ShapeKind.drip⟩

theorem handleCanvasClick_removes_first_witness :
    handleCanvasClick [shapeA, shapeB] ⟨1, 1⟩ = [shapeB] := by
  have hin : isPointInShape (⟨1, 1⟩ : Point) shapeA.points = true := by
    show isPointInShape _ (squareRing 0 0 4 4) = true
    exact (isPointInShape_squareRing _ 0 0 4 4 (by norm_num) (by norm_num)).mpr
      (by norm_num)
  have h := handleCanvasClick_removes_first.2 [] shapeA [shapeB] ⟨1, 1⟩
    (by simp) hin
  simpa using h

/-! ### Polygon closure at two vertices (C3) -/

/-- Engine state with two confirmed vertices in the in-progress polygon. -/
def twoVertexState : EngineState :=
  ⟨[], [⟨0, 0⟩, ⟨50, 0⟩], some ⟨50, 0⟩, none, none, false⟩

/-- C3 evaluation at the failing input: with only 2 confirmed vertices, a
commit at `(3, 0)` — within the snap threshold of the first vertex — makes
the source close the polygon and emit the degenerate 3-point Shape
`[(0,0), (50,0), (0,0)]` of area 0, instead of appending the point as the
claim requires. -/
theorem handleMouseUp_closes_at_two_vertices :
    (handleMouseUp DrawingTool.regular twoVertexState ⟨3, 0⟩).shapes
        = [⟨[⟨0, 0⟩, ⟨50, 0⟩, ⟨0, 0⟩], 0, ShapeKind.regular⟩] ∧
      (handleMouseUp DrawingTool.regular twoVertexState ⟨3, 0⟩).currentShape = [] := by
  have hnear : isNearStartPoint (⟨3, 0⟩ : Point) ⟨0, 0⟩ := by
    rw [isNearStartPoint, Real.sqrt_lt' (by norm_num [SNAP_THRESHOLD])]
    push_cast
    norm_num [SNAP_THRESHOLD]
  have harea : calculatePixelArea [(⟨0, 0⟩ : Point), ⟨50, 0⟩, ⟨0, 0⟩] = 0 := by
    rw [calculatePixelArea, show [(⟨0, 0⟩ : Point), ⟨50, 0⟩, ⟨0, 0⟩].length = 3 from rfl,
      show List.range 3 = [0, 1, 2] from rfl]
    norm_num [shoelaceTerm, List.getD_cons_zero, List.getD_cons_succ]
  constructor <;>
    simp [handleMouseUp, twoVertexState, commitDrawPoint, hnear, harea]

/-! ### Reachable Zone Stores and the shape well-formedness invariant (C4) -/

/-- Source `handleMouseDown`: records the pressed point. -/
def handleMouseDown (st : EngineState) (p : Point) : EngineState :=
  { st with startPoint := some p }

/-- Source `handleMouseLeave`: cancels only the live start point (the
accumulated vertices survive). -/
def handleMouseLeave (st : EngineState) : EngineState :=
  { st with startPoint := none }

/-- The engine state on first load with empty persisted data. -/
def initialState : EngineState := ⟨[], [], none, none, none, false⟩

/-- States reachable through the engine's event handlers. -/
inductive ReachableState : EngineState → Prop where
  | init : ReachableState initialState
  | down (st : EngineState) (p : Point) :
      ReachableState st → ReachableState (handleMouseDown st p)
  | up (tool : DrawingTool) (st : EngineState) (p : Point) :
      ReachableState st → ReachableState (handleMouseUp tool st p)
  | leave (st : EngineState) :
      ReachableState st → ReachableState (handleMouseLeave st)
  | click (st : EngineState) (p : Point) :
      ReachableState st → ReachableState { st with shapes := handleCanvasClick st.shapes p }
  | rulerSubmit (st : EngineState) (input : Option ℝ) (u : RulerUnit) :
      ReachableState st → ReachableState (handleRulerSubmit st input u)

/-- A ring of the form `[a, b, a]` (a closed 2-vertex polygon) contains no
point: its two non-degenerate edges are the same segment walked both ways,
so the ray-casting toggles cancel. -/
lemma isPointInShape_aba (q a b : Point) : isPointInShape q [a, b, a] = false := by
  rw [show isPointInShape q [a, b, a]
      = [((a : Point), (a : Point)), (b, a), (a, b)].foldl
          (fun inside e => if edgeCrosses q e.1 e.2 then !inside else inside) false from rfl]
  simp only [List.foldl_cons, List.foldl_nil, edgeCrosses, bne_self_eq_false,
    Bool.false_and, Bool.false_eq_true, if_false]
  by_cases hy : a.y = b.y
  · simp [hy]
  · have h1 : a.y - b.y ≠ 0 := sub_ne_zero.mpr hy
    have h2 : b.y - a.y ≠ 0 := sub_ne_zero.mpr (Ne.symm hy)
    have hbound : (a.x - b.x) * (q.y - b.y) / (a.y - b.y) + b.x
        = (b.x - a.x) * (q.y - a.y) / (b.y - a.y) + a.x := by
      field_simp
      ring
    simp only [hbound]
    cases hc1 : decide (b.y > q.y) <;> cases hc2 : decide (a.y > q.y) <;>
      cases hc3 : decide (q.x < (b.x - a.x) * (q.y - a.y) / (b.y - a.y) + a.x) <;>
      simp [hc1, hc2, hc3]

/-- A shape either has a full ring (≥ 4 points) or contains no point at
all. -/
def shapeWellFormed (sh : Shape) : Prop :=
  4 ≤ sh.points.length ∨ ∀ q : Point, isPointInShape q sh.points = false

lemma handleCanvasClick_subset (shapes : List Shape) (p : Point) :
    ∀ sh ∈ handleCanvasClick shapes p, sh ∈ shapes := by
  unfold handleCanvasClick
  cases h : shapes.findIdx? fun sh => isPointInShape p sh.points with
  | none => exact fun sh hsh => hsh
  | some i => exact fun sh hsh => (shapes.eraseIdx_sublist i).mem hsh

lemma handleRulerSubmit_shapes (st : EngineState) (input : Option ℝ) (u : RulerUnit) :
    (handleRulerSubmit st input u).shapes = st.shapes ∧
      (handleRulerSubmit st input u).currentShape = st.currentShape := by
  unfold handleRulerSubmit
  cases st.ruler <;> cases input <;> exact ⟨rfl, rfl⟩

lemma commitDrawPoint_invariant (kind : ShapeKind) (st : EngineState) (sp p : Point)
    (ih1 : ∀ sh ∈ st.shapes, shapeWellFormed sh)
    (ih2 : st.currentShape = [] ∨ 2 ≤ st.currentShape.length) :
    (∀ sh ∈ (commitDrawPoint kind st sp p).shapes, shapeWellFormed sh) ∧
      ((commitDrawPoint kind st sp p).currentShape = []
        ∨ 2 ≤ (commitDrawPoint kind st sp p).currentShape.length) := by
  unfold commitDrawPoint
  cases hcs : st.currentShape with
  | nil => exact ⟨ih1, Or.inr (by simp)⟩
  | cons first rest =>
    by_cases hnear : isNearStartPoint p first
    · simp only [hnear, if_true]
      refine ⟨?_, Or.inl trivial⟩
      intro sh hsh
      rcases List.mem_append.mp hsh with hold | hnew
      · exact ih1 sh hold
      · have hsh' : sh = ⟨(first :: rest) ++ [first],
            calculatePixelArea ((first :: rest) ++ [first]), kind⟩ := by
          simpa using hnew
        subst hsh'
        cases rest with
        | nil =>
          rw [hcs] at ih2
          rcases ih2 with h | h
          · exact absurd h (by simp)
          · exact absurd h (by simp)
        | cons x rest2 =>
          cases rest2 with
          | nil => exact Or.inr fun q => isPointInShape_aba q first x
          | cons y rest3 => exact Or.inl (by simp)
    · simp only [hnear, if_false]
      exact ⟨ih1, Or.inr (by simp)⟩

lemma reachable_invariant (st : EngineState) (h : ReachableState st) :
    (∀ sh ∈ st.shapes, shapeWellFormed sh) ∧
      (st.currentShape = [] ∨ 2 ≤ st.currentShape.length) := by
  induction h with
  | init => simp [initialState]
  | down st p _ ih => exact ih
  | leave st _ ih => exact ih
  | click st p _ ih =>
    exact ⟨fun sh hsh => ih.1 sh (handleCanvasClick_subset st.shapes p sh hsh), ih.2⟩
  | rulerSubmit st input u _ ih =>
    rw [show (handleRulerSubmit st input u).shapes = st.shapes from
        (handleRulerSubmit_shapes st input u).1,
      show (handleRulerSubmit st input u).currentShape = st.currentShape from
        (handleRulerSubmit_shapes st input u).2]
    exact ih
  | up tool st p _ ih =>
    unfold handleMouseUp
    cases hsp : st.startPoint with
    | none => exact ih
    | some sp =>
      cases tool with
      | ruler => exact ih
      | delete =>
        exact ⟨fun sh hsh => ih.1 sh (handleCanvasClick_subset st.shapes p sh hsh), ih.2⟩
      | regular => exact commitDrawPoint_invariant .regular st sp p ih.1 ih.2
      | exclusion => exact commitDrawPoint_invariant .exclusion st sp p ih.1 ih.2
      | drip => exact commitDrawPoint_invariant .drip st sp p ih.1 ih.2

/-! ### Flood fill: termination measure and stabilization (C10) -/

/-- The in-bounds cells of the canvas. -/
def inBoundsFinset (width height : ℕ) : Finset Cell :=
  Finset.Ico (0 : ℤ) (width : ℤ) ×ˢ Finset.Ico (0 : ℤ) (height : ℤ)

/-- Number of in-bounds cells not yet visited. -/
def unvisitedCount (width height : ℕ) (visited : List Cell) : ℕ :=
  ((inBoundsFinset width height).filter fun c => c ∉ visited).card

/-- Termination measure of the flood-fill loop: each iteration either pops
a skipped cell (measure −1) or visits a new in-bounds cell and enqueues 4
neighbors (measure −2). -/
def ffMeasure (width height : ℕ) (queue visited : List Cell) : ℕ :=
  queue.length + 5 * unvisitedCount width height visited

lemma mem_inBoundsFinset (width height : ℕ) (c : Cell) :
    c ∈ inBoundsFinset width height ↔
      0 ≤ c.1 ∧ c.1 < (width : ℤ) ∧ 0 ≤ c.2 ∧ c.2 < (height : ℤ) := by
  simp only [inBoundsFinset, Finset.mem_product, Finset.mem_Ico]
  tauto

lemma unvisitedCount_cons (width height : ℕ) (c : Cell) (visited : List Cell)
    (hb : c ∈ inBoundsFinset width height) (hv : c ∉ visited) :
    unvisitedCount width height (c :: visited) + 1
      = unvisitedCount width height visited := by
  have hmem : c ∈ (inBoundsFinset width height).filter fun x => x ∉ visited :=
    Finset.mem_filter.mpr ⟨hb, hv⟩
  have hset : ((inBoundsFinset width height).filter fun x => x ∉ c :: visited)
      = ((inBoundsFinset width height).filter fun x => x ∉ visited).erase c := by
    ext x
    simp only [Finset.mem_filter, Finset.mem_erase, List.mem_cons]
    tauto
  have hpos : 0 < ((inBoundsFinset width height).filter fun x => x ∉ visited).card :=
    Finset.card_pos.mpr ⟨c, hmem⟩
  rw [unvisitedCount, hset, Finset.card_erase_of_mem hmem]
  unfold unvisitedCount at hpos ⊢
  omega

lemma unvisitedCount_le (width height : ℕ) (visited : List Cell) :
    unvisitedCount width height visited ≤ width * height := by
  have h1 : ((inBoundsFinset width height).filter fun c => c ∉ visited).card
      ≤ (inBoundsFinset width height).card := Finset.card_filter_le _ _
  have h2 : (inBoundsFinset width height).card = width * height := by
    rw [inBoundsFinset, Finset.card_product, Int.card_Ico, Int.card_Ico]
    simp
  rw [unvisitedCount]
  omega

lemma floodFillAux_stable (width height : ℕ) (shapes : List Shape) (t : ZoneKind) :
    ∀ (fuel : ℕ) (q v r : List Cell), ffMeasure width height q v ≤ fuel →
      floodFillAux width height shapes t (fuel + 1) q v r
        = floodFillAux width height shapes t fuel q v r := by
  intro fuel
  induction fuel with
  | zero =>
    intro q v r hm
    have hq : q = [] := by
      rw [ffMeasure] at hm
      exact List.length_eq_zero.mp (by omega)
    subst hq
    rfl
  | succ fuel ih =>
    intro q v r hm
    cases q with
    | nil => rfl
    | cons c queue =>
      simp only [floodFillAux]
      split_ifs with h1 h2
      · apply ih
        rw [ffMeasure] at hm ⊢
        simp only [List.length_cons] at hm
        omega
      · apply ih
        rw [ffMeasure] at hm ⊢
        simp only [List.length_cons] at hm
        omega
      · apply ih
        push_neg at h1
        have hb : c ∈ inBoundsFinset width height :=
          (mem_inBoundsFinset width height c).mpr ⟨h1.2.1, h1.2.2.1, h1.2.2.2.1, h1.2.2.2.2⟩
        have hcount := unvisitedCount_cons width height c v hb h1.1
        rw [ffMeasure] at hm ⊢
        rw [List.length_append, List.length_map,
          show directions.length = 4 from rfl]
        simp only [List.length_cons] at hm
        omega

lemma floodFillAux_stable_add (width height : ℕ) (shapes : List Shape) (t : ZoneKind)
    (extra : ℕ) :
    ∀ (fuel : ℕ) (q v r : List Cell), ffMeasure width height q v ≤ fuel →
      floodFillAux width height shapes t (fuel + extra) q v r
        = floodFillAux width height shapes t fuel q v r := by
  induction extra with
  | zero => intro fuel q v r _; rfl
  | succ extra ih =>
    intro fuel q v r hm
    rw [show fuel + (extra + 1) = fuel + extra + 1 by omega,
      floodFillAux_stable width height shapes t (fuel + extra) q v r
        (le_trans hm (by omega)),
      ih fuel q v r hm]

lemma floodFillAux_nodup (width height : ℕ) (shapes : List Shape) (t : ZoneKind) :
    ∀ (fuel : ℕ) (q v r : List Cell), v.Nodup →
      ((floodFillAux width height shapes t fuel q v r).2).Nodup := by
  intro fuel
  induction fuel with
  | zero => intro q v r hv; exact hv
  | succ fuel ih =>
    intro q v r hv
    cases q with
    | nil => exact hv
    | cons c queue =>
      simp only [floodFillAux]
      split_ifs with h1 h2
      · exact ih queue v r hv
      · exact ih queue v r hv
      · refine ih _ (c :: v) _ (List.nodup_cons.mpr ⟨?_, hv⟩)
        intro hc
        exact h1 (Or.inl hc)

/-! ### Flood fill: soundness invariant (C2) -/

/-- A cell of the sampled in-bounds lattice. -/
def cellOK (width height : ℕ) (c : Cell) : Prop :=
  0 ≤ c.1 ∧ c.1 < (width : ℤ) ∧ 0 ≤ c.2 ∧ c.2 < (height : ℤ) ∧
    (CALCULATION_GRID_SIZE : ℤ) ∣ c.1 ∧ (CALCULATION_GRID_SIZE : ℤ) ∣ c.2

/-- Parity of grid coordinates. -/
def cellAligned (c : Cell) : Prop :=
  (CALCULATION_GRID_SIZE : ℤ) ∣ c.1 ∧ (CALCULATION_GRID_SIZE : ℤ) ∣ c.2

lemma neighbors_aligned (c : Cell) (hc : cellAligned c) :
    ∀ c' ∈ directions.map fun d => (c.1 + d.1, c.2 + d.2), cellAligned c' := by
  intro c' hc'
  obtain ⟨d, hd, rfl⟩ := List.mem_map.mp hc'
  have h4 : d = ((0 : ℤ), -(CALCULATION_GRID_SIZE : ℤ)) ∨
      d = ((0 : ℤ), (CALCULATION_GRID_SIZE : ℤ)) ∨
      d = (-(CALCULATION_GRID_SIZE : ℤ), (0 : ℤ)) ∨
      d = ((CALCULATION_GRID_SIZE : ℤ), (0 : ℤ)) := by
    simpa [directions] using hd
  have h2 : ((CALCULATION_GRID_SIZE : ℕ) : ℤ) = 2 := by norm_num [CALCULATION_GRID_SIZE]
  obtain ⟨k1, hk1⟩ := hc.1
  obtain ⟨k2, hk2⟩ := hc.2
  rcases h4 with rfl | rfl | rfl | rfl <;> refine ⟨?_, ?_⟩ <;>
    (rw [h2] at hk1 hk2 ⊢; omega)

/-- Master invariant of the flood-fill loop: the loop only appends cells;
the new region cells are exactly the newly visited cells, are pairwise
distinct, lie on the in-bounds lattice, and all classify to the seed's
kind. -/
lemma floodFillAux_invariant (width height : ℕ) (shapes : List Shape) (t : ZoneKind) :
    ∀ (fuel : ℕ) (q v r : List Cell), (∀ c ∈ q, cellAligned c) →
      ∃ new : List Cell,
        (floodFillAux width height shapes t fuel q v r).1 = r ++ new ∧
        (floodFillAux width height shapes t fuel q v r).2 = new.reverse ++ v ∧
        new.Nodup ∧
        ∀ c ∈ new, c ∉ v ∧ cellOK width height c ∧
          getZoneTypeAtPoint shapes (cellPoint c) = some t := by
  intro fuel
  induction fuel with
  | zero =>
    intro q v r _
    exact ⟨[], by simp [floodFillAux], by simp [floodFillAux], List.nodup_nil, by simp⟩
  | succ fuel ih =>
    intro q v r hq
    cases q with
    | nil =>
      exact ⟨[], by simp [floodFillAux], by simp [floodFillAux], List.nodup_nil, by simp⟩
    | cons c queue =>
      simp only [floodFillAux]
      split_ifs with h1 h2
      · exact ih queue v r fun c' hc' => hq c' (List.mem_cons_of_mem _ hc')
      · exact ih queue v r fun c' hc' => hq c' (List.mem_cons_of_mem _ hc')
      · have hcal : cellAligned c := hq c (List.mem_cons_self _ _)
        have hqs : ∀ c' ∈ queue ++ directions.map fun d => (c.1 + d.1, c.2 + d.2),
            cellAligned c' := by
          intro c' hc'
          rcases List.mem_append.mp hc' with h | h
          · exact hq c' (List.mem_cons_of_mem _ h)
          · exact neighbors_aligned c hcal c' h
        obtain ⟨new2, e1, e2, hnd, hprops⟩ := ih
          (queue ++ directions.map fun d => (c.1 + d.1, c.2 + d.2)) (c :: v) (r ++ [c]) hqs
        push_neg at h1
        refine ⟨c :: new2, ?_, ?_, ?_, ?_⟩
        · rw [e1]; simp
        · rw [e2]; simp
        · refine List.nodup_cons.mpr ⟨?_, hnd⟩
          intro hc
          exact (hprops c hc).1 (List.mem_cons_self _ _)
        · intro x hx
          rcases List.mem_cons.mp hx with rfl | hx2
          · refine ⟨h1.1, ⟨h1.2.1, h1.2.2.1, h1.2.2.2.1, h1.2.2.2.2, hcal.1, hcal.2⟩, ?_⟩
            exact not_not.mp h2
          · obtain ⟨hxv, hok, hcl⟩ := hprops x hx2
            exact ⟨fun hv' => hxv (List.mem_cons_of_mem _ hv'), hok, hcl⟩

/-- A valid unvisited seed is processed whenever there is fuel at all. -/
lemma floodFillAux_seed (width height : ℕ) (shapes : List Shape) (t : ZoneKind)
    (fuel : ℕ) (c : Cell) (v : List Cell) (hfuel : 1 ≤ fuel)
    (hal : cellAligned c) (hv : c ∉ v)
    (hb : 0 ≤ c.1 ∧ c.1 < (width : ℤ) ∧ 0 ≤ c.2 ∧ c.2 < (height : ℤ))
    (ht : getZoneTypeAtPoint shapes (cellPoint c) = some t) :
    ∃ new2 : List Cell,
      (floodFillAux width height shapes t fuel [c] v []).1 = c :: new2 := by
  obtain ⟨f, rfl⟩ : ∃ f, fuel = f + 1 := ⟨fuel - 1, by omega⟩
  simp only [floodFillAux]
  rw [if_neg (by push_neg; exact ⟨hv, hb.1, hb.2.1, hb.2.2.1, hb.2.2.2⟩),
    if_neg (not_not.mpr ht)]
  obtain ⟨new2, e1, -, -, -⟩ := floodFillAux_invariant width height shapes t f
    (([] : List Cell) ++ directions.map fun d => (c.1 + d.1, c.2 + d.2)) (c :: v) ([] ++ [c])
    (by
      intro c' hc'
      rcases List.mem_append.mp hc' with h | h
      · exact absurd h (List.not_mem_nil c')
      · exact neighbors_aligned c hal c' h)
  exact ⟨new2, by simpa using e1⟩

/-! ### The scan: membership and nodup of the sampled lattice -/

lemma sampleCoords_eq (n : ℕ) :
    sampleCoords n = (List.range ((n + 1) / 2)).map fun i : ℕ => (2 : ℤ) * (i : ℤ) := by
  norm_num [sampleCoords, CALCULATION_GRID_SIZE]

lemma mem_sampleCoords (n : ℕ) (x : ℤ) :
    x ∈ sampleCoords n ↔ 0 ≤ x ∧ x < (n : ℤ) ∧ (CALCULATION_GRID_SIZE : ℤ) ∣ x := by
  rw [sampleCoords_eq, show ((CALCULATION_GRID_SIZE : ℕ) : ℤ) = 2 from rfl]
  simp only [List.mem_map, List.mem_range]
  constructor
  · rintro ⟨i, hi, rfl⟩
    refine ⟨by positivity, ?_, ⟨(i : ℤ), rfl⟩⟩
    have h2 : 2 * i < n := by omega
    exact_mod_cast h2
  · rintro ⟨h0, hn, k, rfl⟩
    have hk0 : 0 ≤ k := by omega
    refine ⟨k.toNat, ?_, ?_⟩
    · have hkn : 2 * k < (n : ℤ) := hn
      omega
    · rw [show ((k.toNat : ℤ)) = k from Int.toNat_of_nonneg hk0]

lemma sampleCoords_nodup (n : ℕ) : (sampleCoords n).Nodup := by
  rw [sampleCoords_eq]
  refine List.Nodup.map ?_ (List.nodup_range _)
  intro a b hab
  have h2 : (2 : ℤ) * (a : ℤ) = 2 * (b : ℤ) := hab
  omega

lemma mem_scanCells (width height : ℕ) (c : Cell) :
    c ∈ scanCells width height ↔ cellOK width height c := by
  constructor
  · intro hc
    obtain ⟨x, hx, hy⟩ := List.mem_flatMap.mp hc
    obtain ⟨y, hy2, rfl⟩ := List.mem_map.mp hy
    obtain ⟨hx0, hxn, hxd⟩ := (mem_sampleCoords width x).mp hx
    obtain ⟨hy0, hyn, hyd⟩ := (mem_sampleCoords height y).mp hy2
    exact ⟨hx0, hxn, hy0, hyn, hxd, hyd⟩
  · rintro ⟨h1, h2, h3, h4, h5, h6⟩
    refine List.mem_flatMap.mpr ⟨c.1, (mem_sampleCoords width c.1).mpr ⟨h1, h2, h5⟩, ?_⟩
    exact List.mem_map.mpr ⟨c.2, (mem_sampleCoords height c.2).mpr ⟨h3, h4, h6⟩, rfl⟩

lemma scanCells_nodup (width height : ℕ) : (scanCells width height).Nodup := by
  have : scanCells width height = sampleCoords width ×ˢ sampleCoords height := rfl
  rw [this]
  exact List.Nodup.product (sampleCoords_nodup width) (sampleCoords_nodup height)

/-! ### The scan invariant and the partition theorem -/

/-- Invariant of the scan state `(regions, visited)`: regions are nonempty,
duplicate-free, homogeneous in the classifier's verdict, made of lattice
cells, pairwise disjoint; visited is exactly their union, without
duplicates, and its size is the total cell count. -/
def ScanInv (width height : ℕ) (shapes : List Shape) (acc : List Region × List Cell) :
    Prop :=
  (∀ reg ∈ acc.1, reg.points ≠ [] ∧ reg.points.Nodup ∧
      ∀ c ∈ reg.points, cellOK width height c ∧
        getZoneTypeAtPoint shapes (cellPoint c) = some reg.type) ∧
  (∀ c : Cell, c ∈ acc.2 ↔ ∃ reg ∈ acc.1, c ∈ reg.points) ∧
  acc.2.Nodup ∧
  (acc.1.map Region.points).Pairwise List.Disjoint ∧
  acc.2.length = ((acc.1.map Region.points).map List.length).sum

lemma scanStep_eq_of_classify (width height : ℕ) (shapes : List Shape) (fuel : ℕ)
    (acc : List Region × List Cell) (c : Cell) (t : ZoneKind)
    (hmem : c ∉ acc.2) (hcl : getZoneTypeAtPoint shapes (cellPoint c) = some t) :
    scanStep width height shapes fuel acc c
      = (if (floodFillAux width height shapes t fuel [c] acc.2 []).1.length > 0 then
            acc.1 ++ [⟨(floodFillAux width height shapes t fuel [c] acc.2 []).1, t⟩]
          else acc.1,
          (floodFillAux width height shapes t fuel [c] acc.2 []).2) := by
  unfold scanStep
  rw [if_neg hmem, hcl]

lemma scanStep_inv (width height : ℕ) (shapes : List Shape) (fuel : ℕ)
    (hfuel : 1 ≤ fuel) (acc : List Region × List Cell)
    (hinv : ScanInv width height shapes acc) (c : Cell)
    (hc : cellOK width height c) :
    ScanInv width height shapes (scanStep width height shapes fuel acc c) ∧
      (∀ x ∈ acc.2, x ∈ (scanStep width height shapes fuel acc c).2) ∧
      (getZoneTypeAtPoint shapes (cellPoint c) ≠ none →
        c ∈ (scanStep width height shapes fuel acc c).2) := by
  by_cases hmem : c ∈ acc.2
  · have heq : scanStep width height shapes fuel acc c = acc := by
      unfold scanStep
      rw [if_pos hmem]
    rw [heq]
    exact ⟨hinv, fun x hx => hx, fun _ => hmem⟩
  · cases hcl : getZoneTypeAtPoint shapes (cellPoint c) with
    | none =>
      have heq : scanStep width height shapes fuel acc c = acc := by
        unfold scanStep
        rw [if_neg hmem, hcl]
      rw [heq]
      exact ⟨hinv, fun x hx => hx, fun hne => absurd rfl hne⟩
    | some t =>
      obtain ⟨new, e1, e2, hnd, hprops⟩ := floodFillAux_invariant width height shapes t
        fuel [c] acc.2 []
        (by
          intro x hx
          rw [List.mem_singleton.mp hx]
          exact ⟨hc.2.2.2.2.1, hc.2.2.2.2.2⟩)
      rw [List.nil_append] at e1
      obtain ⟨new2, hseed⟩ := floodFillAux_seed width height shapes t fuel c acc.2 hfuel
        ⟨hc.2.2.2.2.1, hc.2.2.2.2.2⟩ hmem ⟨hc.1, hc.2.1, hc.2.2.1, hc.2.2.2.1⟩ hcl
      have hnew : new = c :: new2 := by rw [← e1, hseed]
      subst hnew
      have hlen : ((c :: new2) : List Cell).length > 0 := by simp
      rw [scanStep_eq_of_classify width height shapes fuel acc c t hmem hcl, e1, e2,
        if_pos hlen]
      have hcmem : c ∈ (c :: new2).reverse ++ acc.2 := by simp
      refine ⟨⟨?_, ?_, ?_, ?_, ?_⟩, ?_, fun _ => hcmem⟩
      · intro reg hreg
        rcases List.mem_append.mp hreg with hold | hnewreg
        · exact hinv.1 reg hold
        · have : reg = ⟨c :: new2, t⟩ := by simpa using hnewreg
          subst this
          refine ⟨by simp, hnd, ?_⟩
          intro x hx
          exact ⟨(hprops x hx).2.1, (hprops x hx).2.2⟩
      · intro x
        simp only [List.mem_append, List.mem_reverse]
        constructor
        · rintro (hx | hx)
          · exact ⟨⟨c :: new2, t⟩, by simp, hx⟩
          · obtain ⟨reg, hreg, hxreg⟩ := (hinv.2.1 x).mp hx
            exact ⟨reg, by simp [hreg], hxreg⟩
        · rintro ⟨reg, hreg, hxreg⟩
          rcases hreg with hold | hnewreg
          · exact Or.inr ((hinv.2.1 x).mpr ⟨reg, hold, hxreg⟩)
          · have : reg = ⟨c :: new2, t⟩ := by simpa using hnewreg
            subst this
            exact Or.inl hxreg
      · refine List.Nodup.append (List.nodup_reverse.mpr hnd) hinv.2.2.1 ?_
        intro x hx1 hx2
        rw [List.mem_reverse] at hx1
        exact (hprops x hx1).1 hx2
      · rw [List.map_append]
        refine List.pairwise_append.mpr ⟨hinv.2.2.2.1, by simp, ?_⟩
        intro pts1 hpts1 pts2 hpts2
        obtain ⟨reg1, hreg1, rfl⟩ := List.mem_map.mp hpts1
        have hpts2' : pts2 = c :: new2 := by simpa using hpts2
        subst hpts2'
        intro x hx1 hx2
        have hxv : x ∈ acc.2 := (hinv.2.1 x).mpr ⟨reg1, hreg1, hx1⟩
        exact (hprops x hx2).1 hxv
      · rw [List.length_append, List.length_reverse, List.map_append, List.map_append,
          List.sum_append]
        simp [hinv.2.2.2.2]
        omega
      · intro x hx
        simp [hx]

lemma scan_foldl_inv (width height : ℕ) (shapes : List Shape) (fuel : ℕ)
    (hfuel : 1 ≤ fuel) :
    ∀ (cells : List Cell) (acc : List Region × List Cell),
      ScanInv width height shapes acc → (∀ c ∈ cells, cellOK width height c) →
      ScanInv width height shapes
          (cells.foldl (scanStep width height shapes fuel) acc) ∧
        (∀ x ∈ acc.2, x ∈ (cells.foldl (scanStep width height shapes fuel) acc).2) ∧
        (∀ c ∈ cells, getZoneTypeAtPoint shapes (cellPoint c) ≠ none →
          c ∈ (cells.foldl (scanStep width height shapes fuel) acc).2) := by
  intro cells
  induction cells with
  | nil => intro acc hinv _; exact ⟨hinv, fun x hx => hx, by simp⟩
  | cons c cells ih =>
    intro acc hinv hcells
    have hstep := scanStep_inv width height shapes fuel hfuel acc hinv c
      (hcells c (by simp))
    have ihres := ih (scanStep width height shapes fuel acc c) hstep.1
      fun x hx => hcells x (by simp [hx])
    refine ⟨ihres.1, ?_, ?_⟩
    · intro x hx
      exact ihres.2.1 x (hstep.2.1 x hx)
    · intro x hx hcl
      rcases List.mem_cons.mp hx with rfl | hx2
      · exact ihres.2.1 x (hstep.2.2 hcl)
      · exact ihres.2.2 x hx2 hcl

/-- The full scan state `(regions, visited)` of `calculateZoneRegions`. -/
def scanState (width height : ℕ) (shapes : List Shape) : List Region × List Cell :=
  (scanCells width height).foldl
    (scanStep width height shapes (floodFillFuel width height)) ([], [])

lemma scanState_spec (width height : ℕ) (shapes : List Shape) :
    ScanInv width height shapes (scanState width height shapes) ∧
      ∀ c ∈ scanCells width height,
        getZoneTypeAtPoint shapes (cellPoint c) ≠ none →
          c ∈ (scanState width height shapes).2 := by
  have h := scan_foldl_inv width height shapes (floodFillFuel width height)
    (by rw [floodFillFuel]; omega) (scanCells width height) ([], [])
    ⟨by simp, by simp, List.nodup_nil, by simp, by simp⟩
    (fun c hc => (mem_scanCells width height c).mp hc)
  exact ⟨h.1, h.2.2⟩

lemma calculateZoneRegions_sound (width height : ℕ) (shapes : List Shape) :
    ∀ reg ∈ calculateZoneRegions width height shapes,
      reg.points ≠ [] ∧ reg.points.Nodup ∧
        ∀ c ∈ reg.points, cellOK width height c ∧
          getZoneTypeAtPoint shapes (cellPoint c) = some reg.type :=
  fun reg hreg => (scanState_spec width height shapes).1.1 reg hreg

lemma calculateZoneRegions_complete (width height : ℕ) (shapes : List Shape) (c : Cell)
    (hc : c ∈ scanCells width height)
    (hcl : getZoneTypeAtPoint shapes (cellPoint c) ≠ none) :
    ∃ reg ∈ calculateZoneRegions width height shapes, c ∈ reg.points := by
  have hs := scanState_spec width height shapes
  exact (hs.1.2.1 c).mp (hs.2 c hc hcl)

/-- Partition theorem: the cells of the regions of one kind are, counted
without double counting, exactly the sampled grid cells the classifier
assigns that kind. -/
lemma czr_countP (width height : ℕ) (shapes : List Shape) (k : ZoneKind) :
    (((calculateZoneRegions width height shapes).filter
          fun reg => decide (reg.type = k)).map
        fun reg => reg.points.length).sum
      = (scanCells width height).countP
          fun c => decide (getZoneTypeAtPoint shapes (cellPoint c) = some k) := by
  obtain ⟨hinv, hcompl⟩ := scanState_spec width height shapes
  have hczr : calculateZoneRegions width height shapes
      = (scanState width height shapes).1 := rfl
  rw [hczr]
  have hmapmap : (((scanState width height shapes).1.filter
        fun reg => decide (reg.type = k)).map fun reg => reg.points.length)
      = (((scanState width height shapes).1.filter
          fun reg => decide (reg.type = k)).map Region.points).map List.length := by
    rw [List.map_map]
    rfl
  rw [hmapmap, ← List.length_flatten]
  have hLk_nodup : ∀ l ∈ ((scanState width height shapes).1.filter
      fun reg => decide (reg.type = k)).map Region.points, l.Nodup := by
    intro l hl
    obtain ⟨reg, hreg, rfl⟩ := List.mem_map.mp hl
    exact (hinv.1 reg (List.mem_filter.mp hreg).1).2.1
  have hLk_pairwise : (((scanState width height shapes).1.filter
      fun reg => decide (reg.type = k)).map Region.points).Pairwise List.Disjoint := by
    have hsub := List.Sublist.map Region.points
      (List.filter_sublist (l := (scanState width height shapes).1)
        (p := fun reg => decide (reg.type = k)))
    exact hinv.2.2.2.1.sublist hsub
  have hflat_nodup : ((((scanState width height shapes).1.filter
      fun reg => decide (reg.type = k)).map Region.points).flatten).Nodup :=
    List.nodup_flatten.mpr ⟨hLk_nodup, hLk_pairwise⟩
  have hfilter_nodup : ((scanCells width height).filter
      fun c => decide (getZoneTypeAtPoint shapes (cellPoint c) = some k)).Nodup :=
    (scanCells_nodup width height).filter _
  have hmemiff : ∀ x : Cell,
      x ∈ (((scanState width height shapes).1.filter
          fun reg => decide (reg.type = k)).map Region.points).flatten ↔
        x ∈ (scanCells width height).filter
          fun c => decide (getZoneTypeAtPoint shapes (cellPoint c) = some k) := by
    intro x
    rw [List.mem_flatten, List.mem_filter]
    constructor
    · rintro ⟨l, hl, hxl⟩
      obtain ⟨reg, hreg, rfl⟩ := List.mem_map.mp hl
      obtain ⟨hregRs, hregk⟩ := List.mem_filter.mp hreg
      have hsound := (hinv.1 reg hregRs).2.2 x hxl
      have hk : reg.type = k := of_decide_eq_true hregk
      refine ⟨(mem_scanCells width height x).mpr hsound.1, ?_⟩
      rw [decide_eq_true_eq, hsound.2, hk]
    · rintro ⟨hxscan, hxcl⟩
      have hxcl' : getZoneTypeAtPoint shapes (cellPoint x) = some k :=
        of_decide_eq_true hxcl
      have hv := hcompl x hxscan (by rw [hxcl']; simp)
      obtain ⟨reg, hreg, hxreg⟩ := (hinv.2.1 x).mp hv
      have hsound := (hinv.1 reg hreg).2.2 x hxreg
      have hk : reg.type = k := Option.some_inj.mp (hsound.2.symm.trans hxcl')
      exact ⟨reg.points, List.mem_map.mpr ⟨reg, List.mem_filter.mpr
        ⟨hreg, by rw [decide_eq_true_eq]; exact hk⟩, rfl⟩, hxreg⟩
  have hperm := (List.perm_ext_iff_of_nodup hflat_nodup hfilter_nodup).mpr hmemiff
  rw [hperm.length_eq, ← List.countP_eq_length_filter]

lemma foldl_add_eq_sum_nat {α : Type} (f : α → ℕ) (l : List α) (c : ℕ) :
    l.foldl (fun s x => s + f x) c = c + (l.map f).sum := by
  induction l generalizing c with
  | nil => simp
  | cons a l ih => simp [ih, Nat.add_assoc]

/-- Aggregation bridge: the per-kind total pixel area is the per-kind
classified cell count times the cell area. -/
lemma calculateTotalArea_eq_countP (width height : ℕ) (shapes : List Shape)
    (k : ZoneKind) :
    calculateTotalArea width height shapes k
      = ((scanCells width height).countP
            fun c => decide (getZoneTypeAtPoint shapes (cellPoint c) = some k))
          * (CALCULATION_GRID_SIZE * CALCULATION_GRID_SIZE) := by
  rw [calculateTotalArea]
  refine Eq.trans (foldl_add_eq_sum_nat
    (fun region : Region => calculateRegionArea region.points) _ 0) ?_
  rw [zero_add,
    show (fun region : Region => calculateRegionArea region.points)
        = fun region : Region =>
          region.points.length * (CALCULATION_GRID_SIZE * CALCULATION_GRID_SIZE) from rfl,
    List.sum_map_mul_right, czr_countP]

lemma ffMeasure_singleton_le (width height : ℕ) (c : Cell) (visited : List Cell) :
    ffMeasure width height [c] visited ≤ floodFillFuel width height := by
  rw [ffMeasure, floodFillFuel]
  have := unvisitedCount_le width height visited
  simp only [List.length_cons, List.length_nil]
  omega

/-- C10: the breadth-first flood fill terminates.  The loop stabilizes
within the proved fuel bound — one more fuel step (or any extra fuel, for
the seeded call) changes nothing — each cell enters the visited set at
most once, and the whole segmentation scan is likewise fuel-independent:
a total function. -/
theorem floodFill_terminates (width height : ℕ) (shapes : List Shape) (t : ZoneKind) :
    (∀ (fuel : ℕ) (q v r : List Cell), ffMeasure width height q v ≤ fuel →
        floodFillAux width height shapes t (fuel + 1) q v r
          = floodFillAux width height shapes t fuel q v r) ∧
      (∀ (startX startY : ℤ) (visited : List Cell) (extra : ℕ),
        floodFillAux width height shapes t (floodFillFuel width height + extra)
            [(startX, startY)] visited []
          = floodFill width height shapes startX startY t visited) ∧
      (∀ (fuel : ℕ) (q v r : List Cell), v.Nodup →
        ((floodFillAux width height shapes t fuel q v r).2).Nodup) ∧
      (∀ extra : ℕ,
        calculateZoneRegionsFuel width height shapes (floodFillFuel width height + extra)
          = calculateZoneRegions width height shapes) := by
  refine ⟨floodFillAux_stable width height shapes t, ?_,
    floodFillAux_nodup width height shapes t, ?_⟩
  · intro sx sy visited extra
    rw [floodFill]
    exact floodFillAux_stable_add width height shapes t extra (floodFillFuel width height)
      [(sx, sy)] visited [] (ffMeasure_singleton_le width height (sx, sy) visited)
  · intro extra
    rw [calculateZoneRegions, calculateZoneRegionsFuel, calculateZoneRegionsFuel]
    have hstep : scanStep width height shapes (floodFillFuel width height + extra)
        = scanStep width height shapes (floodFillFuel width height) := by
      funext acc c
      by_cases hmem : c ∈ acc.2
      · have h1 : scanStep width height shapes (floodFillFuel width height + extra) acc c
            = acc := by
          unfold scanStep
          rw [if_pos hmem]
        have h2 : scanStep width height shapes (floodFillFuel width height) acc c
            = acc := by
          unfold scanStep
          rw [if_pos hmem]
        rw [h1, h2]
      · cases hcl : getZoneTypeAtPoint shapes (cellPoint c) with
        | none =>
          have h1 : scanStep width height shapes (floodFillFuel width height + extra) acc c
              = acc := by
            unfold scanStep
            rw [if_neg hmem, hcl]
          have h2 : scanStep width height shapes (floodFillFuel width height) acc c
              = acc := by
            unfold scanStep
            rw [if_neg hmem, hcl]
          rw [h1, h2]
        | some t' =>
          rw [scanStep_eq_of_classify width height shapes
              (floodFillFuel width height + extra) acc c t' hmem hcl,
            scanStep_eq_of_classify width height shapes
              (floodFillFuel width height) acc c t' hmem hcl,
            floodFillAux_stable_add width height shapes t' extra
              (floodFillFuel width height) [c] acc.2 []
              (ffMeasure_singleton_le width height c acc.2)]
    rw [hstep]

theorem floodFill_terminates_witness :
    ((floodFillAux 2 2 [] ZoneKind.regular 5 [(0, 0)] [] []).2).Nodup :=
  (floodFill_terminates 2 2 [] ZoneKind.regular).2.2.1 5 [(0, 0)] [] [] List.nodup_nil

/-! ### Overlap resolution (C2) -/

/-- The 100×100 regular square of the end-to-end scenario. -/
def bigSquare : Shape := ⟨squareRing 0 0 100 100, 10000, ShapeKind.regular⟩

/-- The 50×50 drip square drawn fully inside it. -/
def dripSquare : Shape := ⟨squareRing 25 25 75 75, 2500, ShapeKind.drip⟩

/-- The scenario Zone Store: the regular square, then the drip square. -/
def scenarioShapes : List Shape := [bigSquare, dripSquare]

/-- On a store of one regular and one drip shape, the classifier is: drip
where the drip polygon contains the point, else regular where the regular
polygon does, else none. -/
lemma getZoneTypeAtPoint_regular_drip (R D : Shape) (hR : R.type = ShapeKind.regular)
    (hD : D.type = ShapeKind.drip) (p : Point) :
    getZoneTypeAtPoint [R, D] p
      = if isPointInShape p D.points then some ZoneKind.drip
        else if isPointInShape p R.points then some ZoneKind.regular
        else none := by
  rw [getZoneTypeAtPoint]
  have hfE : ([R, D].filter fun sh => decide (sh.type = ShapeKind.exclusion)) = [] := by
    simp [List.filter, hR, hD]
  have hfD : ([R, D].filter fun sh => decide (sh.type = ShapeKind.drip)) = [D] := by
    simp [List.filter, hR, hD]
  have hfR : ([R, D].filter fun sh => decide (sh.type = ShapeKind.regular)) = [R] := by
    simp [List.filter, hR, hD]
  rw [hfE, hfD, hfR]
  simp only [List.any_nil, Bool.false_eq_true, if_false, List.any_cons, Bool.or_false]

lemma classify_scenario (p : Point) :
    getZoneTypeAtPoint scenarioShapes p
      = if 25 ≤ p.x ∧ p.x < 75 ∧ 25 ≤ p.y ∧ p.y < 75 then some ZoneKind.drip
        else if 0 ≤ p.x ∧ p.x < 100 ∧ 0 ≤ p.y ∧ p.y < 100 then some ZoneKind.regular
        else none := by
  rw [show scenarioShapes = [bigSquare, dripSquare] from rfl,
    getZoneTypeAtPoint_regular_drip bigSquare dripSquare rfl rfl p,
    show dripSquare.points = squareRing 25 25 75 75 from rfl,
    show bigSquare.points = squareRing 0 0 100 100 from rfl,
    isPointInShape_squareRing_eq p 25 25 75 75 (by norm_num) (by norm_num),
    isPointInShape_squareRing_eq p 0 0 100 100 (by norm_num) (by norm_num)]
  simp only [← Bool.decide_and, decide_eq_true_eq, and_assoc]

set_option maxRecDepth 10000 in
lemma count_drip_scenario :
    ((scanCells 100 100).countP fun c =>
        decide (getZoneTypeAtPoint scenarioShapes (cellPoint c) = some ZoneKind.drip))
      = 625 := by
  have h : ((scanCells 100 100).countP fun c =>
        decide (getZoneTypeAtPoint scenarioShapes (cellPoint c) = some ZoneKind.drip))
      = (scanCells 100 100).countP fun c =>
          decide (25 ≤ c.1 ∧ c.1 < 75 ∧ 25 ≤ c.2 ∧ c.2 < 75) := by
    apply List.countP_congr
    intro c _
    rw [decide_eq_true_eq, decide_eq_true_eq, classify_scenario (cellPoint c)]
    simp only [cellPoint]
    constructor
    · intro hcl
      split_ifs at hcl with hin hbig
      · obtain ⟨h1, h2, h3, h4⟩ := hin
        exact ⟨by exact_mod_cast h1, by exact_mod_cast h2, by exact_mod_cast h3,
          by exact_mod_cast h4⟩
      · exact absurd hcl (by simp)
    · intro hbox
      obtain ⟨h1, h2, h3, h4⟩ := hbox
      rw [if_pos ⟨by exact_mod_cast h1, by exact_mod_cast h2, by exact_mod_cast h3,
        by exact_mod_cast h4⟩]
  rw [h]
  decide

lemma countP_two {α : Type} (p q : α → Bool) :
    ∀ l : List α, (∀ x ∈ l, (p x = true ∧ q x = false) ∨ (p x = false ∧ q x = true)) →
      l.countP p + l.countP q = l.length := by
  intro l
  induction l with
  | nil => simp
  | cons a l ih =>
    intro h
    have ha := h a (by simp)
    have ih2 := ih fun x hx => h x (by simp [hx])
    rw [List.countP_cons, List.countP_cons, List.length_cons]
    rcases ha with ⟨h1, h2⟩ | ⟨h1, h2⟩ <;> simp [h1, h2] <;> omega

lemma scanCells_length (w h : ℕ) :
    (scanCells w h).length = ((w + 1) / 2) * ((h + 1) / 2) := by
  rw [show scanCells w h = sampleCoords w ×ˢ sampleCoords h from rfl,
    List.length_product, sampleCoords_eq, sampleCoords_eq, List.length_map,
    List.length_map, List.length_range, List.length_range]

lemma scanCells_100_length : (scanCells 100 100).length = 2500 := by
  rw [scanCells_length]

lemma count_regular_scenario :
    ((scanCells 100 100).countP fun c =>
        decide (getZoneTypeAtPoint scenarioShapes (cellPoint c) = some ZoneKind.regular))
      = 1875 := by
  have htwo := countP_two
    (fun c : Cell =>
      decide (getZoneTypeAtPoint scenarioShapes (cellPoint c) = some ZoneKind.drip))
    (fun c : Cell =>
      decide (getZoneTypeAtPoint scenarioShapes (cellPoint c) = some ZoneKind.regular))
    (scanCells 100 100) ?_
  · rw [count_drip_scenario, scanCells_100_length] at htwo
    omega
  · intro c hc
    obtain ⟨hb1, hb2, hb3, hb4, -, -⟩ := (mem_scanCells 100 100 c).mp hc
    simp only [decide_eq_true_eq, decide_eq_false_iff_not]
    rw [classify_scenario (cellPoint c)]
    simp only [cellPoint]
    by_cases hd : 25 ≤ (c.1 : ℚ) ∧ (c.1 : ℚ) < 75 ∧ 25 ≤ (c.2 : ℚ) ∧ (c.2 : ℚ) < 75
    · left
      rw [if_pos hd]
      exact ⟨by simp, by simp⟩
    · right
      rw [if_neg hd, if_pos ⟨by exact_mod_cast hb1, by exact_mod_cast hb2,
        by exact_mod_cast hb3, by exact_mod_cast hb4⟩]
      exact ⟨by simp, by simp⟩

/-- C2: with a regular polygon containing a drip polygon in the store, the
region set has no regular cell inside the drip polygon's footprint and the
drip cell count equals the drip polygon's rasterized cell count; in the
concrete 100×100 / 50×50 scenario the aggregate pixel areas are 7500
(regular) and 2500 (drip). -/
theorem zone_overlap_resolution :
    (∀ (width height : ℕ) (R D : Shape), R.type = ShapeKind.regular →
        D.type = ShapeKind.drip →
        (∀ q : Point, isPointInShape q D.points = true → isPointInShape q R.points = true) →
        (∀ reg ∈ calculateZoneRegions width height [R, D],
            reg.type = ZoneKind.regular →
              ∀ c ∈ reg.points, isPointInShape (cellPoint c) D.points = false) ∧
          ((((calculateZoneRegions width height [R, D]).filter
                fun reg => decide (reg.type = ZoneKind.drip)).map
              fun reg => reg.points.length).sum
            = (scanCells width height).countP
                fun c => isPointInShape (cellPoint c) D.points)) ∧
      calculateTotalArea 100 100 scenarioShapes ZoneKind.regular = 7500 ∧
      calculateTotalArea 100 100 scenarioShapes ZoneKind.drip = 2500 := by
  refine ⟨?_, ?_, ?_⟩
  · intro width height R D hR hD _hsub
    constructor
    · intro reg hreg hregty c hc
      by_contra hcon
      have hin : isPointInShape (cellPoint c) D.points = true := by
        cases hval : isPointInShape (cellPoint c) D.points
        · exact absurd hval hcon
        · rfl
      have h2 := ((calculateZoneRegions_sound width height [R, D] reg hreg).2.2 c hc).2
      rw [getZoneTypeAtPoint_regular_drip R D hR hD (cellPoint c), hin] at h2
      simp [hregty] at h2
    · rw [czr_countP width height [R, D] ZoneKind.drip]
      apply List.countP_congr
      intro c _
      rw [decide_eq_true_eq, getZoneTypeAtPoint_regular_drip R D hR hD (cellPoint c)]
      constructor
      · intro hcl
        split_ifs at hcl with h1 h2
        · exact h1
        · exact absurd hcl (by simp)
      · intro hin
        rw [if_pos hin]
  · rw [calculateTotalArea_eq_countP, count_regular_scenario]
    norm_num [CALCULATION_GRID_SIZE]
  · rw [calculateTotalArea_eq_countP, count_drip_scenario]
    norm_num [CALCULATION_GRID_SIZE]

theorem zone_overlap_resolution_witness :
    (((calculateZoneRegions 100 100 scenarioShapes).filter
          fun reg => decide (reg.type = ZoneKind.drip)).map
        fun reg => reg.points.length).sum
      = (scanCells 100 100).countP
          fun c => isPointInShape (cellPoint c) dripSquare.points := by
  have h := zone_overlap_resolution.1 100 100 bigSquare dripSquare rfl rfl
    (fun q hq => by
      show isPointInShape q (squareRing 0 0 100 100) = true
      have hd := (isPointInShape_squareRing q 25 25 75 75 (by norm_num)
        (by norm_num)).mp hq
      exact (isPointInShape_squareRing q 0 0 100 100 (by norm_num) (by norm_num)).mpr
        ⟨by linarith [hd.1], by linarith [hd.2.1], by linarith [hd.2.2.1],
          by linarith [hd.2.2.2]⟩)
  exact h.2

/-! ### Hover hit-testing (C5) -/

lemma hoverPred_eq (reg : Region) (gx gy : ℤ) :
    ((reg.points.any fun p => decide (p.1 = gx) && decide (p.2 = gy)) = true)
      ↔ ((gx, gy) : Cell) ∈ reg.points := by
  rw [List.any_eq_true]
  constructor
  · rintro ⟨p, hp, hpred⟩
    rw [Bool.and_eq_true, decide_eq_true_eq, decide_eq_true_eq] at hpred
    have hpeq : p = (gx, gy) := Prod.ext hpred.1 hpred.2
    rwa [hpeq] at hp
  · intro hmem
    exact ⟨(gx, gy), hmem, by simp⟩

lemma handleMouseMove_none_iff (regions : List Region) (pos : Point) :
    handleMouseMove regions pos = none ↔
      ∀ reg ∈ regions,
        ((⌊pos.x / (GRID_SIZE : ℚ)⌋ * (GRID_SIZE : ℤ),
          ⌊pos.y / (GRID_SIZE : ℚ)⌋ * (GRID_SIZE : ℤ)) : Cell) ∉ reg.points := by
  simp only [handleMouseMove]
  rw [List.findIdx?_eq_none_iff]
  constructor
  · intro h reg hreg hmem
    have htrue := (hoverPred_eq reg _ _).mpr hmem
    rw [h reg hreg] at htrue
    exact absurd htrue (by simp)
  · intro h reg hreg
    by_contra hne
    rw [Bool.not_eq_false] at hne
    exact h reg hreg ((hoverPred_eq reg _ _).mp hne)

lemma findIdx?_some_spec {α : Type} (p : α → Bool) :
    ∀ (l : List α) (i : ℕ), l.findIdx? p = some i →
      i < l.length ∧ (∀ x, l[i]? = some x → p x = true) ∧
        ∀ j, j < i → ∀ y, l[j]? = some y → p y = false := by
  intro l
  induction l with
  | nil => intro i h; simp [List.findIdx?] at h
  | cons a l ih =>
    intro i h
    rw [List.findIdx?_cons] at h
    by_cases hpa : p a = true
    · rw [if_pos hpa] at h
      injection h with h'
      subst h'
      refine ⟨by simp, ?_, ?_⟩
      · intro x hx
        rw [List.getElem?_cons_zero] at hx
        injection hx with hx'
        rw [← hx']
        exact hpa
      · intro j hj
        omega
    · rw [if_neg hpa, List.findIdx?_succ] at h
      obtain ⟨i', hi', rfl⟩ := Option.map_eq_some'.mp h
      obtain ⟨hlen, hsat, hbefore⟩ := ih i' hi'
      refine ⟨by simp; omega, ?_, ?_⟩
      · intro x hx
        rw [List.getElem?_cons_succ] at hx
        exact hsat x hx
      · intro j hj y hy
        cases j with
        | zero =>
          rw [List.getElem?_cons_zero] at hy
          injection hy with hy'
          rw [← hy']
          cases hb : p a with
          | false => rfl
          | true => exact absurd hb hpa
        | succ j' =>
          rw [List.getElem?_cons_succ] at hy
          exact hbefore j' (by omega) y hy

/-- C5 (amended): hover hit-testing snaps the cursor position to the
`GRID_SIZE` (= 4) lattice — a coarser grid than the
`CALCULATION_GRID_SIZE` (= 2) lattice used by classification sampling and
segmentation — and reports the first region owning exactly that snapped
cell, or none. -/
theorem handleMouseMove_snaps_to_GRID_SIZE (regions : List Region) (pos : Point) :
    (handleMouseMove regions pos = none ↔
        ∀ reg ∈ regions,
          ((⌊pos.x / (GRID_SIZE : ℚ)⌋ * (GRID_SIZE : ℤ),
            ⌊pos.y / (GRID_SIZE : ℚ)⌋ * (GRID_SIZE : ℤ)) : Cell) ∉ reg.points) ∧
      ∀ i : ℕ, handleMouseMove regions pos = some i →
        i < regions.length ∧
          (∀ reg, regions[i]? = some reg →
            ((⌊pos.x / (GRID_SIZE : ℚ)⌋ * (GRID_SIZE : ℤ),
              ⌊pos.y / (GRID_SIZE : ℚ)⌋ * (GRID_SIZE : ℤ)) : Cell) ∈ reg.points) ∧
          ∀ j, j < i → ∀ reg, regions[j]? = some reg →
            ((⌊pos.x / (GRID_SIZE : ℚ)⌋ * (GRID_SIZE : ℤ),
              ⌊pos.y / (GRID_SIZE : ℚ)⌋ * (GRID_SIZE : ℤ)) : Cell) ∉ reg.points := by
  refine ⟨handleMouseMove_none_iff regions pos, ?_⟩
  intro i hi
  have hfind : regions.findIdx? (fun region => region.points.any fun p =>
      decide (p.1 = ⌊pos.x / (GRID_SIZE : ℚ)⌋ * (GRID_SIZE : ℤ)) &&
        decide (p.2 = ⌊pos.y / (GRID_SIZE : ℚ)⌋ * (GRID_SIZE : ℤ))) = some i := hi
  obtain ⟨hlen, hsat, hbefore⟩ := findIdx?_some_spec _ regions i hfind
  refine ⟨hlen, ?_, ?_⟩
  · intro reg hreg
    exact (hoverPred_eq reg _ _).mp (hsat reg hreg)
  · intro j hj reg hreg hmem
    have hfalse := hbefore j hj reg hreg
    rw [(hoverPred_eq reg _ _).mpr hmem] at hfalse
    exact absurd hfalse (by simp)

/-- Single region for the C5 amended-claim witness. -/
def regionsC5 : List Region := [⟨[(0, 0)], ZoneKind.regular⟩]

theorem handleMouseMove_snaps_witness : (0 : ℕ) < regionsC5.length := by
  have hsome : handleMouseMove regionsC5 ⟨1, 1⟩ = some 0 := by
    simp only [handleMouseMove, regionsC5]
    rw [List.findIdx?_cons, if_pos]
    rw [List.any_cons]
    norm_num [GRID_SIZE]
  exact ((handleMouseMove_snaps_to_GRID_SIZE regionsC5 ⟨1, 1⟩).2 0 hsome).1

/-- The shape of the C5 counterexample: a regular band over `2 ≤ x < 4`. -/
def hoverShape : Shape := ⟨squareRing 2 0 4 4, 8, ShapeKind.regular⟩

lemma getZoneTypeAtPoint_single_regular (R : Shape) (hR : R.type = ShapeKind.regular)
    (p : Point) :
    getZoneTypeAtPoint [R] p
      = if isPointInShape p R.points then some ZoneKind.regular else none := by
  rw [getZoneTypeAtPoint]
  have hfE : ([R].filter fun sh => decide (sh.type = ShapeKind.exclusion)) = [] := by
    simp [List.filter, hR]
  have hfD : ([R].filter fun sh => decide (sh.type = ShapeKind.drip)) = [] := by
    simp [List.filter, hR]
  have hfR : ([R].filter fun sh => decide (sh.type = ShapeKind.regular)) = [R] := by
    simp [List.filter, hR]
  rw [hfE, hfD, hfR]
  simp only [List.any_nil, Bool.false_eq_true, if_false, List.any_cons, Bool.or_false]

lemma classify_hoverShape (p : Point) :
    getZoneTypeAtPoint [hoverShape] p
      = if 2 ≤ p.x ∧ p.x < 4 ∧ 0 ≤ p.y ∧ p.y < 4 then some ZoneKind.regular else none := by
  rw [getZoneTypeAtPoint_single_regular hoverShape rfl p,
    show hoverShape.points = squareRing 2 0 4 4 from rfl,
    isPointInShape_squareRing_eq p 2 0 4 4 (by norm_num) (by norm_num)]
  simp only [← Bool.decide_and, decide_eq_true_eq, and_assoc]

/-- C5 counterexample: on a 4×4 canvas with one regular shape over
`2 ≤ x < 4`, the segmentation cell containing the cursor `(5/2, 1/2)` —
namely `(2, 0)` — is owned by a computed region, yet hover hit-testing
reports no region, because it snaps to the `GRID_SIZE = 4` lattice cell
`(0, 0)` instead of the `CALCULATION_GRID_SIZE = 2` cell `(2, 0)`; the
two grid constants differ. -/
theorem handleMouseMove_misses_containing_cell :
    handleMouseMove (calculateZoneRegions 4 4 [hoverShape]) ⟨5/2, 1/2⟩ = none ∧
      (∃ reg ∈ calculateZoneRegions 4 4 [hoverShape],
        ((⌊(5/2 : ℚ) / (CALCULATION_GRID_SIZE : ℚ)⌋ * (CALCULATION_GRID_SIZE : ℤ),
          ⌊(1/2 : ℚ) / (CALCULATION_GRID_SIZE : ℚ)⌋ * (CALCULATION_GRID_SIZE : ℤ)) : Cell)
          ∈ reg.points) ∧
      GRID_SIZE ≠ CALCULATION_GRID_SIZE := by
  refine ⟨?_, ?_, by decide⟩
  · rw [handleMouseMove_none_iff]
    intro reg hreg hmem
    have hzero : ((⌊((⟨5/2, 1/2⟩ : Point)).x / (GRID_SIZE : ℚ)⌋ * (GRID_SIZE : ℤ),
        ⌊((⟨5/2, 1/2⟩ : Point)).y / (GRID_SIZE : ℚ)⌋ * (GRID_SIZE : ℤ)) : Cell)
        = ((0, 0) : Cell) := by
      norm_num [GRID_SIZE]
    rw [hzero] at hmem
    have h2 := ((calculateZoneRegions_sound 4 4 [hoverShape] reg hreg).2.2 _ hmem).2
    rw [classify_hoverShape (cellPoint (0, 0))] at h2
    norm_num [cellPoint] at h2
    exact Option.noConfusion h2
  · have hc2 : ((⌊(5/2 : ℚ) / (CALCULATION_GRID_SIZE : ℚ)⌋ * (CALCULATION_GRID_SIZE : ℤ),
        ⌊(1/2 : ℚ) / (CALCULATION_GRID_SIZE : ℚ)⌋ * (CALCULATION_GRID_SIZE : ℤ)) : Cell)
        = ((2, 0) : Cell) := by
      norm_num [CALCULATION_GRID_SIZE]
    rw [hc2]
    apply calculateZoneRegions_complete 4 4 [hoverShape] (2, 0)
    · rw [mem_scanCells]
      exact ⟨by norm_num, by norm_num, by norm_num, by norm_num, by decide, by decide⟩
    · rw [classify_hoverShape (cellPoint (2, 0))]
      norm_num [cellPoint]
      exact fun hx => Option.noConfusion hx

/-! ### C4: the classifier and the areas ignore degenerate shapes -/

lemma getZoneTypeAtPoint_filter_long (shapes : List Shape)
    (hwf : ∀ sh ∈ shapes, shapeWellFormed sh) (q : Point) :
    getZoneTypeAtPoint shapes q
      = getZoneTypeAtPoint (shapes.filter fun sh => decide (4 ≤ sh.points.length)) q := by
  have hany : ∀ k : ShapeKind,
      ((shapes.filter fun sh => decide (sh.type = k)).any
          fun sh => isPointInShape q sh.points)
        = (((shapes.filter fun sh => decide (4 ≤ sh.points.length)).filter
              fun sh => decide (sh.type = k)).any
            fun sh => isPointInShape q sh.points) := by
    intro k
    rw [Bool.eq_iff_iff, any_filter_kind, any_filter_kind]
    constructor
    · rintro ⟨sh, hsh, hty, hin⟩
      have hlong : 4 ≤ sh.points.length := by
        rcases hwf sh hsh with hl | hempty
        · exact hl
        · rw [hempty q] at hin
          exact absurd hin (by simp)
      exact ⟨sh, List.mem_filter.mpr ⟨hsh, by rw [decide_eq_true_eq]; exact hlong⟩,
        hty, hin⟩
    · rintro ⟨sh, hsh, hty, hin⟩
      exact ⟨sh, (List.mem_filter.mp hsh).1, hty, hin⟩
  rw [getZoneTypeAtPoint, getZoneTypeAtPoint, hany ShapeKind.exclusion,
    hany ShapeKind.drip, hany ShapeKind.regular]

lemma floodFillAux_congr (width height : ℕ) (s1 s2 : List Shape) (t : ZoneKind)
    (hcl : ∀ p : Point, getZoneTypeAtPoint s1 p = getZoneTypeAtPoint s2 p) :
    ∀ (fuel : ℕ) (q v r : List Cell),
      floodFillAux width height s1 t fuel q v r
        = floodFillAux width height s2 t fuel q v r := by
  intro fuel
  induction fuel with
  | zero => intro q v r; rfl
  | succ fuel ih =>
    intro q v r
    cases q with
    | nil => rfl
    | cons c queue =>
      simp only [floodFillAux, hcl (cellPoint c)]
      split_ifs <;> apply ih

lemma scanStep_congr (width height : ℕ) (s1 s2 : List Shape) (fuel : ℕ)
    (hcl : ∀ p : Point, getZoneTypeAtPoint s1 p = getZoneTypeAtPoint s2 p) :
    scanStep width height s1 fuel = scanStep width height s2 fuel := by
  funext acc c
  by_cases hmem : c ∈ acc.2
  · have h1 : scanStep width height s1 fuel acc c = acc := by
      unfold scanStep
      rw [if_pos hmem]
    have h2 : scanStep width height s2 fuel acc c = acc := by
      unfold scanStep
      rw [if_pos hmem]
    rw [h1, h2]
  · cases hval : getZoneTypeAtPoint s2 (cellPoint c) with
    | none =>
      have h1 : scanStep width height s1 fuel acc c = acc := by
        unfold scanStep
        rw [if_neg hmem, (hcl (cellPoint c)).trans hval]
      have h2 : scanStep width height s2 fuel acc c = acc := by
        unfold scanStep
        rw [if_neg hmem, hval]
      rw [h1, h2]
    | some t =>
      rw [scanStep_eq_of_classify width height s1 fuel acc c t hmem
          ((hcl (cellPoint c)).trans hval),
        scanStep_eq_of_classify width height s2 fuel acc c t hmem hval,
        floodFillAux_congr width height s1 s2 t hcl fuel [c] acc.2 []]

lemma calculateTotalArea_congr (width height : ℕ) (s1 s2 : List Shape) (k : ZoneKind)
    (hcl : ∀ p : Point, getZoneTypeAtPoint s1 p = getZoneTypeAtPoint s2 p) :
    calculateTotalArea width height s1 k = calculateTotalArea width height s2 k := by
  rw [calculateTotalArea, calculateTotalArea, calculateZoneRegions, calculateZoneRegions,
    calculateZoneRegionsFuel, calculateZoneRegionsFuel,
    scanStep_congr width height s1 s2 (floodFillFuel width height) hcl]

/-- C4: every Shape in a reachable Zone Store has a full ring
(`points.length ≥ 4`) or contains no point at all; consequently shapes
with fewer points influence neither the classifier's verdict nor any
aggregated area — filtering them out changes nothing. -/
theorem zone_store_shape_invariant (st : EngineState) (h : ReachableState st) :
    (∀ sh ∈ st.shapes, 4 ≤ sh.points.length ∨
        ∀ q : Point, isPointInShape q sh.points = false) ∧
      (∀ q : Point, getZoneTypeAtPoint st.shapes q
          = getZoneTypeAtPoint
              (st.shapes.filter fun sh => decide (4 ≤ sh.points.length)) q) ∧
      ∀ (width height : ℕ) (k : ZoneKind),
        calculateTotalArea width height st.shapes k
          = calculateTotalArea width height
              (st.shapes.filter fun sh => decide (4 ≤ sh.points.length)) k := by
  have hwf := (reachable_invariant st h).1
  refine ⟨hwf, getZoneTypeAtPoint_filter_long st.shapes hwf, ?_⟩
  intro width height k
  exact calculateTotalArea_congr width height st.shapes _ k
    (getZoneTypeAtPoint_filter_long st.shapes hwf)

/-- A reachable state whose store holds a degenerate 3-point shape, for
the C4 witness: draw a first segment, then commit within the snap
threshold of its start. -/
def reachC4 : EngineState :=
  handleMouseUp DrawingTool.regular
    (handleMouseDown
      (handleMouseUp DrawingTool.regular
        (handleMouseDown initialState ⟨0, 0⟩) ⟨50, 0⟩)
      ⟨99, 99⟩)
    ⟨3, 0⟩

theorem zone_store_shape_invariant_witness :
    getZoneTypeAtPoint reachC4.shapes ⟨1, 1⟩
      = getZoneTypeAtPoint
          (reachC4.shapes.filter fun sh => decide (4 ≤ sh.points.length)) ⟨1, 1⟩ :=
  (zone_store_shape_invariant reachC4
    (ReachableState.up _ _ _ (ReachableState.down _ _
      (ReachableState.up _ _ _ (ReachableState.down _ _ ReachableState.init))))).2.1 ⟨1, 1⟩

end Irrigation
